import Mathlib

/-!
Verification of the core of the web rosbag rosout analyzer
(`rosbagUtils.ts`, `App.tsx`, `types.ts`) via a shallow embedding in Lean.

Modelling conventions:
* JavaScript `number` timestamps are modelled as `Rat`.
* The `Date`-based timestamp formatter, the `toFixed(6)` renderer and the
  JSON float printer are opaque function parameters; the verified claims
  never depend on their output.
* `new RegExp(pat, 'i')` followed by `.test` is modelled by a parameter
  `compile : String → Option (String → Bool)`; `none` models a pattern
  whose construction throws (caught by the `try`/`catch` in the source).
* JS `Set`s are modelled as lists in insertion order (the source only uses
  `has`, `add` and `size`), and JS objects used as string-keyed count maps
  are modelled as association lists in key-insertion order.
-/

namespace RosbagAnalyzer

/-- Model of the `RosoutMessage` interface from `types.ts`.  Optional
fields become `Option`s; `timestamp` (a JS float) is modelled as `Rat`. -/
structure RosoutMessage where
  timestamp : Rat
  node : String
  severity : Nat
  message : String
  file : Option String := none
  line : Option Nat := none
  function : Option String := none
  topics : Option (List String) := none
deriving DecidableEq, Repr

/-- The `'OR' | 'AND'` union type of the filter mode. -/
inductive FilterMode where
  | OR
  | AND
deriving DecidableEq, Repr, BEq

/-- The anonymous `filters` parameter type of `filterMessages`
(`rosbagUtils.ts`).  Every field there is optional. -/
structure Filters where
  nodeNames : Option (List String) := none
  severityLevels : Option (List Nat) := none
  messageKeywords : Option (List String) := none
  messageRegex : Option String := none
  filterMode : Option FilterMode := none
  useRegex : Bool := false
  startTime : Option Rat := none
  endTime : Option Rat := none

/-- Initial-segment test on character lists (the building block for the
model of JS `String.prototype.includes`). -/
def leadsWith : List Char → List Char → Bool
  | [], _ => true
  | _ :: _, [] => false
  | p :: ps, c :: cs => p == c && leadsWith ps cs

/-- Contiguous-occurrence test on character lists. -/
def listIncl : List Char → List Char → Bool
  | [], sub => sub.isEmpty
  | c :: t, sub => leadsWith sub (c :: t) || listIncl t sub

/-- Model of JS `hay.includes(sub)`. -/
def strIncl (hay sub : String) : Bool :=
  listIncl hay.data sub.data

/-- Whitespace removed by JS `String.prototype.trim`. -/
def isTrimWs (ch : Char) : Bool :=
  ch == ' ' || ch == '\t' || ch == '\n' || ch == '\r' || ch == '\x0b' || ch == '\x0c'

/-- Model of JS `s.trim()`: strip leading and trailing whitespace. -/
def strTrim (s : String) : String :=
  String.mk (((s.data.dropWhile isTrimWs).reverse.dropWhile isTrimWs).reverse)

/-- Model of JS `s.toLowerCase()` (ASCII case folding). -/
def strLower (s : String) : String :=
  String.mk (s.data.map Char.toLower)

/-- Truthiness of `filters.useRegex && filters.messageRegex &&
filters.messageRegex.trim()`, guarding the regex branch of
`filterMessages`. -/
def regexActive (filters : Filters) : Bool :=
  filters.useRegex &&
    (match filters.messageRegex with
     | some p => !(p == "") && !(strTrim p == "")
     | none => false)

/-- Truthiness of `!filters.useRegex && filters.messageKeywords &&
filters.messageKeywords.length > 0`, guarding the keyword branch. -/
def keywordActive (filters : Filters) : Bool :=
  !filters.useRegex &&
    (match filters.messageKeywords with
     | some l => !l.isEmpty
     | none => false)

/-- Keyword normalisation from `filterMessages`: trim every entry, drop
entries that became empty, lowercase the rest. -/
def normalizeKeywords (kws : List String) : List String :=
  ((kws.map strTrim).filter (fun k => !(k == ""))).map strLower

/-- The `conditions` array built by `filterMessages` for one record, in
push order: severity membership, node membership, message match.  A
branch contributes nothing when its spec field is inactive, when the
regex fails to compile, or when every keyword normalises away. -/
def conditionsFor (compile : String → Option (String → Bool))
    (filters : Filters) (msg : RosoutMessage) : List Bool :=
  let sevConds : List Bool :=
    match filters.severityLevels with
    | some levels => if levels.isEmpty then [] else [levels.contains msg.severity]
    | none => []
  let nodeConds : List Bool :=
    match filters.nodeNames with
    | some names => if names.isEmpty then [] else [names.contains msg.node]
    | none => []
  let msgConds : List Bool :=
    if regexActive filters then
      match filters.messageRegex with
      | some pat =>
        match compile pat with
        | some test => [test msg.message]
        | none => []
      | none => []
    else if keywordActive filters then
      match filters.messageKeywords with
      | some kws =>
        let keywords := normalizeKeywords kws
        if keywords.isEmpty then []
        else [keywords.any (fun keyword => strIncl (strLower msg.message) keyword)]
      | none => []
    else []
  sevConds ++ nodeConds ++ msgConds

/-- The `msg.timestamp < filters.startTime` early rejection. -/
def startExcluded (filters : Filters) (msg : RosoutMessage) : Bool :=
  match filters.startTime with
  | some s => decide (msg.timestamp < s)
  | none => false

/-- The `msg.timestamp > filters.endTime` early rejection. -/
def endExcluded (filters : Filters) (msg : RosoutMessage) : Bool :=
  match filters.endTime with
  | some e => decide (e < msg.timestamp)
  | none => false

/-- The per-record predicate of `filterMessages`: time bounds reject
immediately; an empty condition set passes; otherwise `filterMode`
combines the conditions (`AND` ⇒ all, anything else ⇒ any). -/
def passesFilters (compile : String → Option (String → Bool))
    (filters : Filters) (msg : RosoutMessage) : Bool :=
  let conditions := conditionsFor compile filters msg
  if startExcluded filters msg then false
  else if endExcluded filters msg then false
  else if conditions.isEmpty then true
  else if filters.filterMode = some FilterMode.AND then conditions.all id
  else conditions.any id

/-- Model of `filterMessages` from `rosbagUtils.ts`. -/
def filterMessages (compile : String → Option (String → Bool))
    (messages : List RosoutMessage) (filters : Filters) : List RosoutMessage :=
  messages.filter (fun msg => passesFilters compile filters msg)

/-- The `timezone` parameter of the export functions. -/
inductive Timezone where
  | large
  | utc
deriving DecidableEq, Repr

/-- Digit character for `n < 10`. -/
def digitChar (n : Nat) : Char :=
  Char.ofNat (48 + n)

/-- Decimal digits of a natural number, most significant first (model of
the JS rendering of a nonnegative integer `number`). -/
def natDigits (n : Nat) : List Char :=
  if h : n < 10 then [digitChar n]
  else natDigits (n / 10) ++ [digitChar (n % 10)]
decreasing_by exact Nat.div_lt_self (by omega) (by omega)

/-- Model of JS `String(n)` for a nonnegative integer `number`. -/
def natToStr (n : Nat) : String :=
  String.mk (natDigits n)

/-- The `SEVERITY_NAMES` record (`rosbagUtils.ts` / `types.ts`), as an
association list over its sparse integer keys. -/
def SEVERITY_NAMES : List (Nat × String) :=
  [(1, "DEBUG"), (2, "INFO"), (4, "WARN"), (8, "ERROR"), (16, "FATAL")]

/-- Lookup in `SEVERITY_NAMES` (`undefined` becomes `none`). -/
def severityName? (s : Nat) : Option String :=
  (SEVERITY_NAMES.find? (fun p => p.1 == s)).map Prod.snd

/-- The `SEVERITY_NAMES[msg.severity] || String(msg.severity)` fallback
used by the CSV and TXT exports. -/
def severityDisplay (s : Nat) : String :=
  (severityName? s).getD (natToStr s)

/-- Model of `escapeCSV` from `rosbagUtils.ts`. -/
def escapeCSV (value : String) : String :=
  if value.contains ',' || value.contains '"' || value.contains '\n' then
    "\"" ++ (value.replace "\"" "\"\"") ++ "\""
  else value

/-- The fixed CSV header cells. -/
def csvHeaders : List String :=
  ["Timestamp", "Time", "Node", "Severity", "Message", "File", "Line", "Function", "Topics"]

/-- One CSV data row of `exportToCSV`.  `fmtTime` models
`formatTimestamp` and `fix6` models `Number.prototype.toFixed(6)`. -/
def csvRow (fmtTime : Timezone → Rat → String) (fix6 : Rat → String)
    (tz : Timezone) (msg : RosoutMessage) : List String :=
  [fix6 msg.timestamp,
   fmtTime tz msg.timestamp,
   escapeCSV msg.node,
   severityDisplay msg.severity,
   escapeCSV msg.message,
   escapeCSV (msg.file.getD ""),
   natToStr (msg.line.getD 0),
   escapeCSV (msg.function.getD ""),
   escapeCSV (String.intercalate ";" (msg.topics.getD []))]

/-- Model of `exportToCSV` from `rosbagUtils.ts`. -/
def exportToCSV (fmtTime : Timezone → Rat → String) (fix6 : Rat → String)
    (messages : List RosoutMessage) (tz : Timezone) : String :=
  String.intercalate "\n"
    (String.intercalate "," csvHeaders ::
      (messages.map (csvRow fmtTime fix6 tz)).map (String.intercalate ","))

/-- One line of `exportToTXT`. -/
def txtLine (fmtTime : Timezone → Rat → String) (tz : Timezone)
    (msg : RosoutMessage) : String :=
  let time := fmtTime tz msg.timestamp
  let severity := severityDisplay msg.severity
  let location :=
    if !(msg.file.getD "" == "") then (msg.file.getD "") ++ ":" ++ natToStr (msg.line.getD 0)
    else ""
  let line := "[" ++ time ++ "] [" ++ severity ++ "] [" ++ msg.node ++ "]: " ++ msg.message
  if !(location == "") then line ++ " (" ++ location ++ ")" else line

/-- Model of `exportToTXT` from `rosbagUtils.ts`. -/
def exportToTXT (fmtTime : Timezone → Rat → String)
    (messages : List RosoutMessage) (tz : Timezone) : String :=
  String.intercalate "\n" (messages.map (txtLine fmtTime tz))

/-- JSON value tree.  Number literals keep their rendered token (the
claims never compare numeric fields numerically, and JS float printing is
outside the embedding). -/
inductive Json where
  | null : Json
  | bool (b : Bool) : Json
  | num (lit : String) : Json
  | str (s : String) : Json
  | arr (elems : List Json) : Json
  | obj (fields : List (String × Json)) : Json
deriving Repr

/-- Lowercase hex digit for `n < 16`. -/
def hexDigitChar (n : Nat) : Char :=
  Char.ofNat (if n < 10 then 48 + n else 87 + n)

/-- The escape `JSON.stringify` applies to one string character. -/
def escChar (c : Char) : List Char :=
  if c == '"' then ['\\', '"']
  else if c == '\\' then ['\\', '\\']
  else if c == '\n' then ['\\', 'n']
  else if c == '\r' then ['\\', 'r']
  else if c == '\t' then ['\\', 't']
  else if c == '\x08' then ['\\', 'b']
  else if c == '\x0c' then ['\\', 'f']
  else if c.toNat < 32 then
    '\\' :: 'u' :: '0' :: ['0', hexDigitChar (c.toNat / 16), hexDigitChar (c.toNat % 16)]
  else [c]

/-- Stringify-style escaping of a whole character list. -/
def escapeChars : List Char → List Char
  | [] => []
  | c :: cs => escChar c ++ escapeChars cs

/-- A JSON string literal (quotes included) for `s`. -/
def quoteChars (s : String) : List Char :=
  '"' :: (escapeChars s.data ++ ['"'])

/-- `n` spaces of indentation. -/
def padChars (n : Nat) : List Char :=
  List.replicate n ' '

/-- Join character chunks with a separator. -/
def joinChars (sep : List Char) : List (List Char) → List Char
  | [] => []
  | [x] => x
  | x :: y :: rest => x ++ sep ++ joinChars sep (y :: rest)

/-- Model of `JSON.stringify(·, null, 2)` at indentation level `ind`:
pretty-printed with two-space indentation, `[]`/`{}` for empty
containers, and one line per element otherwise. -/
def serJson (ind : Nat) (j : Json) : List Char :=
  match j with
  | .null => 'n' :: ['u', 'l', 'l']
  | .bool true => 't' :: ['r', 'u', 'e']
  | .bool false => 'f' :: ['a', 'l', 's', 'e']
  | .num lit => lit.data
  | .str s => quoteChars s
  | .arr elems =>
    match elems with
    | [] => ['[', ']']
    | e :: rest =>
      '[' :: '\n' ::
        (joinChars [',', '\n']
          ((e :: rest).attach.map (fun ⟨x, hx⟩ => padChars (ind + 2) ++ serJson (ind + 2) x)) ++
         ('\n' :: padChars ind ++ [']']))
  | .obj fields =>
    match fields with
    | [] => ['{', '}']
    | f :: rest =>
      '{' :: '\n' ::
        (joinChars [',', '\n']
          ((f :: rest).attach.map (fun p =>
            padChars (ind + 2) ++ quoteChars p.1.1 ++ (':' :: ' ' :: serJson (ind + 2) p.1.2))) ++
         ('\n' :: padChars ind ++ ['}']))
termination_by sizeOf j
decreasing_by
  · have h := List.sizeOf_lt_of_mem hx
    simp only [List.cons.sizeOf_spec, Json.arr.sizeOf_spec] at h ⊢
    omega
  · have h := List.sizeOf_lt_of_mem p.2
    obtain ⟨⟨k, v⟩, hp⟩ := p
    simp only [List.cons.sizeOf_spec, Prod.mk.sizeOf_spec, Json.obj.sizeOf_spec] at h ⊢
    omega

/-- Model of `JSON.stringify(·, null, 2)` as a string. -/
def stringifyJson (j : Json) : String :=
  String.mk (serJson 0 j)

/-- The JSON value `SEVERITY_NAMES[msg.severity] || msg.severity`: a
string for a known severity, the raw number otherwise. -/
def severityJson (s : Nat) : Json :=
  match severityName? s with
  | some n => .str n
  | none => .num (natToStr s)

/-- The object `exportToJSON` builds for one record.  `numRepr` models
the JS float rendering of the raw timestamp. -/
def msgToJson (fmtTime : Timezone → Rat → String) (numRepr : Rat → String)
    (tz : Timezone) (msg : RosoutMessage) : Json :=
  .obj
    [("timestamp", .num (numRepr msg.timestamp)),
     ("time", .str (fmtTime tz msg.timestamp)),
     ("node", .str msg.node),
     ("severity", severityJson msg.severity),
     ("message", .str msg.message),
     ("file", .str (msg.file.getD "")),
     ("line", .num (natToStr (msg.line.getD 0))),
     ("function", .str (msg.function.getD "")),
     ("topics", .arr ((msg.topics.getD []).map .str))]

/-- Model of `exportToJSON` from `rosbagUtils.ts`. -/
def exportToJSON (fmtTime : Timezone → Rat → String) (numRepr : Rat → String)
    (messages : List RosoutMessage) (tz : Timezone) : String :=
  stringifyJson (.arr (messages.map (msgToJson fmtTime numRepr tz)))

/-- One step of `count[key] = (count[key] || 0) + 1` on a JS object used
as a count map: bump the existing entry in place, or append a fresh key
at the end (insertion order). -/
def bumpCount {α : Type} [DecidableEq α] : List (α × Nat) → α → List (α × Nat)
  | [], k => [(k, 1)]
  | (a, c) :: rest, k =>
    if a = k then (a, c + 1) :: rest else (a, c) :: bumpCount rest k

/-- The entry list of the count map built by `getStatistics`'s
`forEach`, in key-insertion order (model of `Object.entries`). -/
def countEntries {α : Type} [DecidableEq α] (keys : List α) : List (α × Nat) :=
  keys.foldl bumpCount []

/-- Stable descending insertion for the JS comparator
`([, a], [, b]) => b - a`: the new element goes after the run of strictly
larger counts and before every equal or smaller one that follows it. -/
def insertByCount {α : Type} (x : α × Nat) : List (α × Nat) → List (α × Nat)
  | [] => [x]
  | y :: rest => if y.2 > x.2 then y :: insertByCount x rest else x :: y :: rest

/-- Model of the stable `Array.prototype.sort` with comparator
`([, a], [, b]) => b - a` (count descending, ties keep input order). -/
def sortByCountDesc {α : Type} : List (α × Nat) → List (α × Nat)
  | [] => []
  | x :: xs => insertByCount x (sortByCountDesc xs)

/-- The result shape of `getStatistics` in `App.tsx`. -/
structure Stats where
  severityCount : List (Nat × Nat)
  topNodes : List (String × Nat)
deriving DecidableEq, Repr

/-- Model of `getStatistics` from `App.tsx`, as a function of the
record list it closes over. -/
def getStatistics (messages : List RosoutMessage) : Stats :=
  let severityCount := countEntries (messages.map (fun m => m.severity))
  let nodeCount := countEntries (messages.map (fun m => m.node))
  { severityCount := severityCount,
    topNodes := (sortByCountDesc nodeCount).take 5 }

/-- First-matching lookup in an association list (a JS property read on
the count map). -/
def lookupCount {α : Type} [DecidableEq α] : List (α × Nat) → α → Option Nat
  | [], _ => none
  | (a, c) :: rest, k => if a = k then some c else lookupCount rest k

/-- The elements of a list in first-encounter order, skipping those
already in `seen`. -/
def firstOccs {α : Type} [DecidableEq α] : List α → List α → List α
  | _, [] => []
  | seen, x :: xs =>
    if x ∈ seen then firstOccs seen xs else x :: firstOccs (x :: seen) xs

/-- The bag header fields `loadRosbagMessages` inspects. -/
structure BagHeader where
  indexPosition : Nat
  connectionCount : Nat
  chunkCount : Nat
deriving DecidableEq, Repr

/-- One connection record of the container (topic name and type tag). -/
structure Connection where
  topic : String
  type : String
deriving DecidableEq, Repr

/-- The decoded payload handed to the `readMessages` callback.  A JS
field that can be `undefined` and is only tested for truthiness is
modelled as a `String`/`Nat`/list with its falsy default; `level` and
`msg` are `Option`s because the code tests them with `!== undefined`. -/
structure RawPayload where
  level? : Option Nat := none
  msg? : Option String := none
  name : String := ""
  file : String := ""
  line : Nat := 0
  function : String := ""
  topics : List String := []
deriving DecidableEq, Repr

/-- One stored message: its topic, envelope timestamp and payload. -/
structure StoredMessage where
  topic : String
  sec : Nat
  nsec : Nat
  payload : RawPayload
deriving DecidableEq, Repr

/-- The opened container as the external reader presents it. -/
structure Bag where
  header : BagHeader
  connections : List Connection
  messages : List StoredMessage
deriving DecidableEq, Repr

/-- The failure taxonomy of the container adapter. -/
inductive LoadError where
  | unindexedContainer : LoadError
  | noMatchingChannels (available : List (String × String)) : LoadError
deriving DecidableEq, Repr

/-- The successful result of `loadRosbagMessages`. -/
structure LoadResult where
  messages : List RosoutMessage
  uniqueNodes : List String
deriving DecidableEq, Repr

/-- Decidable equality for `Except` results (used to evaluate the loader
on concrete containers). -/
instance {ε α : Type} [DecidableEq ε] [DecidableEq α] : DecidableEq (Except ε α) := fun a b =>
  match a, b with
  | .error x, .error y =>
    if h : x = y then .isTrue (by rw [h]) else .isFalse (fun hc => h (by injection hc))
  | .ok x, .ok y =>
    if h : x = y then .isTrue (by rw [h]) else .isFalse (fun hc => h (by injection hc))
  | .error _, .ok _ => .isFalse (fun hc => Except.noConfusion hc)
  | .ok _, .error _ => .isFalse (fun hc => Except.noConfusion hc)

/-- A connection qualifies when its topic contains `"rosout"` or its type
is exactly `rosgraph_msgs/Log`. -/
def topicMatchesRosout (c : Connection) : Bool :=
  strIncl c.topic "rosout" || c.type == "rosgraph_msgs/Log"

/-- `Set.prototype.add` on the insertion-ordered node set. -/
def addUniqueNode (nodes : List String) (s : String) : List String :=
  if nodes.contains s then nodes else nodes ++ [s]

/-- The per-message callback body of `loadRosbagMessages`: payloads with
`level` and `msg` defined become records (node falls back to
`"unknown"`); the node set only receives truthy payload names. -/
def loadStep (acc : List RosoutMessage × List String) (m : StoredMessage) :
    List RosoutMessage × List String :=
  match m.payload.level?, m.payload.msg? with
  | some lvl, some txt =>
    let record : RosoutMessage :=
      { timestamp := (m.sec : Rat) + (m.nsec : Rat) / 1000000000,
        node := if m.payload.name == "" then "unknown" else m.payload.name,
        severity := lvl,
        message := txt,
        file := some m.payload.file,
        line := some m.payload.line,
        function := some m.payload.function,
        topics := some m.payload.topics }
    (acc.1 ++ [record],
     if m.payload.name == "" then acc.2 else addUniqueNode acc.2 m.payload.name)
  | _, _ => acc

/-- Model of `loadRosbagMessages` from `rosbagUtils.ts`: reject an
unindexed container, find the rosout channels (failing with the full
channel inventory when none qualifies), then stream the matching
messages through the callback. -/
def loadRosbagMessages (bag : Bag) : Except LoadError LoadResult :=
  if bag.header.indexPosition == 0 && bag.header.connectionCount == 0 &&
      bag.header.chunkCount == 0 then
    .error .unindexedContainer
  else
    let rosoutTopics := (bag.connections.filter topicMatchesRosout).map (fun c => c.topic)
    if rosoutTopics.isEmpty then
      .error (.noMatchingChannels (bag.connections.map (fun c => (c.topic, c.type))))
    else
      let relevant := bag.messages.filter (fun m => rosoutTopics.contains m.topic)
      let res := relevant.foldl loadStep ([], [])
      .ok { messages := res.1, uniqueNodes := res.2 }

/-- JSON insignificant whitespace. -/
def isWsChar (ch : Char) : Bool :=
  ch == ' ' || ch == '\n' || ch == '\t' || ch == '\r'

/-- Drop leading whitespace. -/
def skipWs : List Char → List Char
  | [] => []
  | c :: cs => if isWsChar c then skipWs cs else c :: cs

/-- Value of one hex digit. -/
def hexVal (c : Char) : Option Nat :=
  if '0' ≤ c ∧ c ≤ '9' then some (c.toNat - 48)
  else if 'a' ≤ c ∧ c ≤ 'f' then some (c.toNat - 87)
  else if 'A' ≤ c ∧ c ≤ 'F' then some (c.toNat - 55)
  else none

/-- The character denoted by a single-letter escape. -/
def escCode (e : Char) : Option Char :=
  if e == '"' then some '"'
  else if e == '\\' then some '\\'
  else if e == '/' then some '/'
  else if e == 'n' then some '\n'
  else if e == 'r' then some '\r'
  else if e == 't' then some '\t'
  else if e == 'b' then some '\x08'
  else if e == 'f' then some '\x0c'
  else none

/-- Parse the body of a JSON string literal after its opening quote,
returning the decoded characters and the input after the closing quote.
The fuel only needs to cover the number of decoded characters. -/
def parseStrBody : Nat → List Char → Option (List Char × List Char)
  | 0, _ => none
  | _ + 1, [] => none
  | f + 1, c :: cs =>
    if c == '"' then some ([], cs)
    else if c == '\\' then
      match cs with
      | 'u' :: h1 :: h2 :: h3 :: h4 :: cs3 =>
        match hexVal h1, hexVal h2, hexVal h3, hexVal h4 with
        | some a, some b, some c2, some d =>
          (parseStrBody f cs3).map
            (fun r => (Char.ofNat (a * 4096 + b * 256 + c2 * 16 + d) :: r.1, r.2))
        | _, _, _, _ => none
      | e :: cs2 =>
        match escCode e with
        | some d => (parseStrBody f cs2).map (fun r => (d :: r.1, r.2))
        | none => none
      | [] => none
    else (parseStrBody f cs).map (fun r => (c :: r.1, r.2))

/-- Characters a JSON number token may consist of (scanned maximally). -/
def numTokenChar (ch : Char) : Bool :=
  ch.isDigit || ch == '-' || ch == '+' || ch == '.' || ch == 'e' || ch == 'E'

/-- A plausible JSON number token: nonempty and made of number-token
characters (anything a sane float printer emits qualifies). -/
def numToken (s : String) : Bool :=
  !s.data.isEmpty && s.data.all numTokenChar

/-- First-matching field lookup in a parsed JSON object. -/
def lookupField : List (String × Json) → String → Option Json
  | [], _ => none
  | (k, v) :: rest, key => if k = key then some v else lookupField rest key

/-- Split off the maximal run of number-token characters. -/
def spanNum : List Char → List Char × List Char
  | [] => ([], [])
  | c :: cs =>
    if numTokenChar c then
      let r := spanNum cs
      (c :: r.1, r.2)
    else ([], c :: cs)

mutual

/-- Parse one JSON value (whitespace-tolerant, recursion bounded by
`fuel`). -/
def parseValue : Nat → List Char → Option (Json × List Char)
  | 0, _ => none
  | f + 1, input =>
    match skipWs input with
    | [] => none
    | c :: rest =>
      if c == '"' then
        match parseStrBody rest.length rest with
        | some (content, r) => some (.str (String.mk content), r)
        | none => none
      else if c == '[' then
        let cs2 := skipWs rest
        if cs2.head? = some ']' then some (.arr [], cs2.tail)
        else
          match parseItems f cs2 with
          | some (xs, r) => some (.arr xs, r)
          | none => none
      else if c == '{' then
        let cs2 := skipWs rest
        if cs2.head? = some '}' then some (.obj [], cs2.tail)
        else
          match parseFields f cs2 with
          | some (fs, r) => some (.obj fs, r)
          | none => none
      else if c == 't' then
        match rest with
        | 'r' :: 'u' :: ('e' :: r) => some (.bool true, r)
        | _ => none
      else if c == 'f' then
        match rest with
        | 'a' :: 'l' :: ('s' :: ('e' :: r)) => some (.bool false, r)
        | _ => none
      else if c == 'n' then
        match rest with
        | 'u' :: 'l' :: ('l' :: r) => some (.null, r)
        | _ => none
      else if numTokenChar c then
        let r := spanNum (c :: rest)
        some (.num (String.mk r.1), r.2)
      else none

/-- Parse the comma-separated elements of a nonempty JSON array up to and
including the closing bracket. -/
def parseItems : Nat → List Char → Option (List Json × List Char)
  | 0, _ => none
  | f + 1, input =>
    match parseValue f input with
    | some (v, r) =>
      match skipWs r with
      | ',' :: r2 =>
        match parseItems f r2 with
        | some (vs, r3) => some (v :: vs, r3)
        | none => none
      | ']' :: r2 => some ([v], r2)
      | _ => none
    | none => none

/-- Parse the members of a nonempty JSON object up to and including the
closing brace. -/
def parseFields : Nat → List Char → Option (List (String × Json) × List Char)
  | 0, _ => none
  | f + 1, input =>
    match skipWs input with
    | '"' :: cs1 =>
      match parseStrBody cs1.length cs1 with
      | some (keyChars, cs2) =>
        match skipWs cs2 with
        | ':' :: cs3 =>
          match parseValue f cs3 with
          | some (v, cs4) =>
            match skipWs cs4 with
            | ',' :: cs5 =>
              match parseFields f cs5 with
              | some (fs, r) => some ((String.mk keyChars, v) :: fs, r)
              | none => none
            | '}' :: cs5 => some ([(String.mk keyChars, v)], cs5)
            | _ => none
          | none => none
        | _ => none
      | none => none
    | _ => none

end

/-- A JSON parser for a whole string: one value, then only trailing
whitespace. -/
def parseJSON (s : String) : Option Json :=
  match parseValue (s.data.length + 1) s.data with
  | some (j, rest) => if (skipWs rest).isEmpty then some j else none
  | none => none

/-- Wellformedness of the number literals inside a JSON tree: every
`num` token is a nonempty run of number-token characters (true of
everything the exporter emits, given a sane float printer). -/
def jsonNumWF (j : Json) : Bool :=
  match j with
  | .null => true
  | .bool _ => true
  | .str _ => true
  | .num lit => numToken lit
  | .arr elems => (elems.attach.map (fun p => jsonNumWF p.1)).all id
  | .obj fields => (fields.attach.map (fun p => jsonNumWF p.1.2)).all id
termination_by sizeOf j
decreasing_by
  · have h := List.sizeOf_lt_of_mem p.2
    simp only [Json.arr.sizeOf_spec] at *
    omega
  · have h := List.sizeOf_lt_of_mem p.2
    obtain ⟨⟨k, v⟩, hp⟩ := p
    simp only [Prod.mk.sizeOf_spec, Json.obj.sizeOf_spec] at *
    omega

/-- An upper bound on the parser fuel needed for one JSON value. -/
def jsonFuel (j : Json) : Nat :=
  match j with
  | .null => 1
  | .bool _ => 1
  | .str _ => 1
  | .num _ => 1
  | .arr elems => 1 + (elems.attach.map (fun p => 2 + jsonFuel p.1)).sum
  | .obj fields => 1 + (fields.attach.map (fun p => 2 + jsonFuel p.1.2)).sum
termination_by sizeOf j
decreasing_by
  · have h := List.sizeOf_lt_of_mem p.2
    simp only [Json.arr.sizeOf_spec] at *
    omega
  · have h := List.sizeOf_lt_of_mem p.2
    obtain ⟨⟨k, v⟩, hp⟩ := p
    simp only [Prod.mk.sizeOf_spec, Json.obj.sizeOf_spec] at *
    omega

/-!  Concrete fixtures used to instantiate the theorems below. -/

/-- A regex engine in which every pattern fails to compile. -/
def noneCompile : String → Option (String → Bool) :=
  fun _ => none

/-- A regex engine doing case-blind substring matching. -/
def subCompile : String → Option (String → Bool) :=
  fun pat => some (fun s => strIncl (strLower s) (strLower pat))

/-- A sample record. -/
def sampleMsg : RosoutMessage :=
  { timestamp := 5, node := "/talker", severity := 2, message := "hello world" }

/-- A sample record with an unknown severity. -/
def sampleMsg99 : RosoutMessage :=
  { timestamp := 5, node := "/talker", severity := 99, message := "boom",
    file := some "a.c", line := some 7, function := some "main", topics := some ["/a"] }

/-- A spec whose only active predicate is severity ∈ {2}. -/
def sevSpec : Filters :=
  { severityLevels := some [2] }

/-- A spec with a malformed regex request. -/
def badRegexSpec : Filters :=
  { messageRegex := some "(", useRegex := true }

/-- A spec whose keyword list normalises to nothing. -/
def blankKeywordSpec : Filters :=
  { messageKeywords := some [" ", ""] }

/-- A spec with a start-time cutoff after `sampleMsg` and a severity
predicate `sampleMsg` satisfies. -/
def lateStartSpec : Filters :=
  { severityLevels := some [2], startTime := some 10 }

/-- A trivial time formatter. -/
def wFmt : Timezone → Rat → String :=
  fun _ _ => "2024-01-01 00:00:00.000"

/-- A trivial `toFixed(6)` renderer. -/
def wFix6 : Rat → String :=
  fun _ => "5.000000"

/-- A trivial JSON float renderer producing a valid number token. -/
def wNum : Rat → String :=
  fun _ => "0"

/-- An unindexed container that nevertheless has channels and data. -/
def unindexedBag : Bag :=
  { header := { indexPosition := 0, connectionCount := 0, chunkCount := 0 },
    connections := [{ topic := "/rosout", type := "rosgraph_msgs/Log" }],
    messages := [{ topic := "/rosout", sec := 1, nsec := 0,
                   payload := { level? := some 2, msg? := some "hi" } }] }

/-- An indexed container with one anonymous rosout message. -/
def anonBag : Bag :=
  { header := { indexPosition := 4096, connectionCount := 1, chunkCount := 1 },
    connections := [{ topic := "/rosout", type := "rosgraph_msgs/Log" }],
    messages := [{ topic := "/rosout", sec := 1, nsec := 0,
                   payload := { level? := some 2, msg? := some "hi", name := "" } }] }

/-!  Shared helper lemmas. -/

/-- A nonempty list of booleans whose conjunction holds has a true
element. -/
theorem all_id_imp_any_id (l : List Bool) (h : l.isEmpty = false) :
    l.all id = true → l.any id = true := by
  cases l with
  | nil => simp at h
  | cons c t =>
    intro ha
    simp only [List.all_cons, Bool.and_eq_true, id] at ha
    simp [List.any_cons, ha.1]

/-- `conditionsFor` ignores the filter mode. -/
theorem conditionsFor_mode (compile : String → Option (String → Bool))
    (spec : Filters) (m : Option FilterMode) (msg : RosoutMessage) :
    conditionsFor compile { spec with filterMode := m } msg = conditionsFor compile spec msg := rfl

/-- `startExcluded` ignores the filter mode. -/
theorem startExcluded_mode (spec : Filters) (m : Option FilterMode) (msg : RosoutMessage) :
    startExcluded { spec with filterMode := m } msg = startExcluded spec msg := rfl

/-- `endExcluded` ignores the filter mode. -/
theorem endExcluded_mode (spec : Filters) (m : Option FilterMode) (msg : RosoutMessage) :
    endExcluded { spec with filterMode := m } msg = endExcluded spec msg := rfl

/-- `passesFilters`, written out. -/
theorem passesFilters_eq (compile : String → Option (String → Bool))
    (spec : Filters) (msg : RosoutMessage) :
    passesFilters compile spec msg =
      if startExcluded spec msg then false
      else if endExcluded spec msg then false
      else if (conditionsFor compile spec msg).isEmpty then true
      else if spec.filterMode = some FilterMode.AND then
        (conditionsFor compile spec msg).all id
      else (conditionsFor compile spec msg).any id := rfl

/-- A record passing in `AND` mode passes in `OR` mode. -/
theorem passes_AND_imp_OR (compile : String → Option (String → Bool))
    (spec : Filters) (msg : RosoutMessage)
    (h : passesFilters compile { spec with filterMode := some FilterMode.AND } msg = true) :
    passesFilters compile { spec with filterMode := some FilterMode.OR } msg = true := by
  rw [passesFilters_eq] at h ⊢
  rw [conditionsFor_mode, startExcluded_mode, endExcluded_mode] at h ⊢
  rw [show ({ spec with filterMode := some FilterMode.AND } : Filters).filterMode
      = some FilterMode.AND from rfl] at h
  rw [show ({ spec with filterMode := some FilterMode.OR } : Filters).filterMode
      = some FilterMode.OR from rfl]
  by_cases h1 : startExcluded spec msg = true
  · rw [if_pos h1] at h; exact absurd h (by simp)
  · rw [if_neg h1] at h ⊢
    by_cases h2 : endExcluded spec msg = true
    · rw [if_pos h2] at h; exact absurd h (by simp)
    · rw [if_neg h2] at h ⊢
      by_cases h3 : (conditionsFor compile spec msg).isEmpty = true
      · rw [if_pos h3]
      · rw [if_neg h3] at h ⊢
        rw [if_pos rfl] at h
        rw [if_neg (show ¬(some FilterMode.OR = some FilterMode.AND) by decide)]
        exact all_id_imp_any_id _ (by simpa using h3) h

/-- A malformed (or blank) regex leaves the condition list as if no
regex had been given. -/
theorem conditionsFor_regex_malformed (compile : String → Option (String → Bool))
    (spec : Filters) (msg : RosoutMessage) (pat : String)
    (hu : spec.useRegex = true) (hr : spec.messageRegex = some pat)
    (hc : compile pat = none) :
    conditionsFor compile spec msg =
      conditionsFor compile { spec with messageRegex := none } msg := by
  obtain ⟨nn, sl, mk, mr, fm, ur, st, et⟩ := spec
  simp only at hu hr
  subst hu hr
  simp [conditionsFor, regexActive, keywordActive, hc]

/-- A keyword list that normalises to nothing leaves the condition list
as if no keywords had been given. -/
theorem conditionsFor_keywords_empty (compile : String → Option (String → Bool))
    (spec : Filters) (msg : RosoutMessage) (kws : List String)
    (hu : spec.useRegex = false) (hk : spec.messageKeywords = some kws)
    (hn : normalizeKeywords kws = []) :
    conditionsFor compile spec msg =
      conditionsFor compile { spec with messageKeywords := none } msg := by
  obtain ⟨nn, sl, mk, mr, fm, ur, st, et⟩ := spec
  simp only at hu hk
  subst hu hk
  simp [conditionsFor, regexActive, keywordActive, hn]

/-- Two specs producing the same conditions, time bounds and mode filter
identically. -/
theorem filterMessages_congr_conditions (compile : String → Option (String → Bool))
    (R : List RosoutMessage) (spec₁ spec₂ : Filters)
    (hcond : ∀ msg, conditionsFor compile spec₁ msg = conditionsFor compile spec₂ msg)
    (hst : spec₁.startTime = spec₂.startTime) (het : spec₁.endTime = spec₂.endTime)
    (hfm : spec₁.filterMode = spec₂.filterMode) :
    filterMessages compile R spec₁ = filterMessages compile R spec₂ := by
  unfold filterMessages
  apply List.filter_congr
  intro msg _
  unfold passesFilters startExcluded endExcluded
  rw [hcond, hst, het, hfm]

/-- C1: `filterMessages` is total and never throws: a non-compiling
regular expression makes the message predicate drop out of the active
predicate set (instead of excluding records or raising), a keyword list
whose entries all trim to empty likewise drops the keyword predicate,
and in both cases filtering coincides with the spec that simply lacks
that field. -/
theorem filterMessages_degrades_gracefully (compile : String → Option (String → Bool))
    (R : List RosoutMessage) (spec : Filters) :
    (∀ pat, spec.useRegex = true → spec.messageRegex = some pat → compile pat = none →
      filterMessages compile R spec =
        filterMessages compile R { spec with messageRegex := none }) ∧
    (∀ kws, spec.useRegex = false → spec.messageKeywords = some kws →
      normalizeKeywords kws = [] →
      filterMessages compile R spec =
        filterMessages compile R { spec with messageKeywords := none }) := by
  constructor
  · intro pat hu hr hc
    exact filterMessages_congr_conditions compile R _ _
      (fun msg => conditionsFor_regex_malformed compile spec msg pat hu hr hc) rfl rfl rfl
  · intro kws hu hk hn
    exact filterMessages_congr_conditions compile R _ _
      (fun msg => conditionsFor_keywords_empty compile spec msg kws hu hk hn) rfl rfl rfl

/-- Witness for C1 at a concrete malformed pattern and a concrete
all-blank keyword list. -/
theorem filterMessages_degrades_gracefully_witness :
    filterMessages noneCompile [sampleMsg] badRegexSpec =
      filterMessages noneCompile [sampleMsg] { badRegexSpec with messageRegex := none } ∧
    filterMessages noneCompile [sampleMsg] blankKeywordSpec =
      filterMessages noneCompile [sampleMsg] { blankKeywordSpec with messageKeywords := none } :=
  ⟨(filterMessages_degrades_gracefully noneCompile [sampleMsg] badRegexSpec).1
      "(" rfl rfl rfl,
   (filterMessages_degrades_gracefully noneCompile [sampleMsg] blankKeywordSpec).2
      [" ", ""] rfl rfl (by decide)⟩

/-- C2: a filter spec whose fields are all empty or absent filters
nothing: the result is the input list itself. -/
theorem filterMessages_empty_spec_identity (compile : String → Option (String → Bool))
    (R : List RosoutMessage) (spec : Filters)
    (hn : spec.nodeNames = none ∨ spec.nodeNames = some [])
    (hs : spec.severityLevels = none ∨ spec.severityLevels = some [])
    (hk : spec.messageKeywords = none ∨ spec.messageKeywords = some [])
    (hr : spec.messageRegex = none ∨ spec.messageRegex = some "")
    (hst : spec.startTime = none) (het : spec.endTime = none) :
    filterMessages compile R spec = R := by
  have hpred : ∀ msg, passesFilters compile spec msg = true := by
    intro msg
    have hcond : conditionsFor compile spec msg = [] := by
      rcases hn with hn | hn <;> rcases hs with hs | hs <;> rcases hk with hk | hk <;>
        rcases hr with hr | hr <;>
          simp [conditionsFor, regexActive, keywordActive, hn, hs, hk, hr]
    simp [passesFilters, hcond, startExcluded, endExcluded, hst, het]
  unfold filterMessages
  exact List.filter_eq_self.mpr (fun a _ => hpred a)

/-- Witness for C2 on a one-record list and the all-defaults spec. -/
theorem filterMessages_empty_spec_identity_witness :
    filterMessages noneCompile [sampleMsg] {} = [sampleMsg] :=
  filterMessages_empty_spec_identity noneCompile [sampleMsg] {}
    (Or.inl rfl) (Or.inl rfl) (Or.inl rfl) (Or.inl rfl) rfl rfl

/-- C3: with identical specs except for the mode, every record kept by
`AND` filtering is also kept by `OR` filtering. -/
theorem filterMessages_AND_subset_OR (compile : String → Option (String → Bool))
    (R : List RosoutMessage) (spec : Filters) :
    ∀ r ∈ filterMessages compile R { spec with filterMode := some FilterMode.AND },
      r ∈ filterMessages compile R { spec with filterMode := some FilterMode.OR } := by
  intro r hr
  rw [filterMessages, List.mem_filter] at hr ⊢
  exact ⟨hr.1, passes_AND_imp_OR compile spec r hr.2⟩

/-- Witness for C3 at a concrete record present in the `AND` result. -/
theorem filterMessages_AND_subset_OR_witness :
    sampleMsg ∈ filterMessages noneCompile [sampleMsg]
      { sevSpec with filterMode := some FilterMode.OR } :=
  filterMessages_AND_subset_OR noneCompile [sampleMsg] sevSpec sampleMsg (by decide)

/-- C4: a record before `startTime` or after `endTime` is excluded
whatever the mode and whatever the other predicates say. -/
theorem timeBounds_always_exclude (compile : String → Option (String → Bool))
    (R : List RosoutMessage) (spec : Filters) (msg : RosoutMessage)
    (h : (∃ s, spec.startTime = some s ∧ msg.timestamp < s) ∨
         (∃ e, spec.endTime = some e ∧ e < msg.timestamp)) :
    msg ∉ filterMessages compile R spec := by
  intro hmem
  rw [filterMessages, List.mem_filter] at hmem
  rcases h with ⟨s, hs, hlt⟩ | ⟨e, he, hlt⟩
  · have hx : startExcluded spec msg = true := by simp [startExcluded, hs, hlt]
    simp [passesFilters, hx] at hmem
  · have hx : endExcluded spec msg = true := by simp [endExcluded, he, hlt]
    have h2 := hmem.2
    unfold passesFilters at h2
    by_cases h1 : startExcluded spec msg = true <;> simp [h1, hx] at h2

/-- Witness for C4: `sampleMsg` (t = 5, severity 2) satisfies the
severity predicate of `lateStartSpec` yet its start bound (10) excludes
it. -/
theorem timeBounds_always_exclude_witness :
    sampleMsg ∉ filterMessages noneCompile [sampleMsg] lateStartSpec :=
  timeBounds_always_exclude noneCompile [sampleMsg] lateStartSpec sampleMsg
    (Or.inl ⟨10, rfl, by norm_num [sampleMsg]⟩)

/-- C7: a container whose header reports index position 0, zero
connections and zero chunks is rejected with the unindexed-container
error, whatever channels or messages it carries. -/
theorem loadRosbagMessages_unindexed (bag : Bag)
    (h1 : bag.header.indexPosition = 0) (h2 : bag.header.connectionCount = 0)
    (h3 : bag.header.chunkCount = 0) :
    loadRosbagMessages bag = .error LoadError.unindexedContainer := by
  simp [loadRosbagMessages, h1, h2, h3]

/-- Witness for C7 on a concrete unindexed container that does contain a
rosout channel and a decodable message. -/
theorem loadRosbagMessages_unindexed_witness :
    loadRosbagMessages unindexedBag = .error LoadError.unindexedContainer :=
  loadRosbagMessages_unindexed unindexedBag rfl rfl rfl

/-- `loadStep` never removes a node from the accumulated node set. -/
theorem loadStep_nodes_mono (acc : List RosoutMessage × List String) (m : StoredMessage) :
    ∀ s ∈ acc.2, s ∈ (loadStep acc m).2 := by
  intro s hs
  cases hl : m.payload.level? with
  | none => simpa [loadStep, hl] using hs
  | some lvl =>
    cases hm : m.payload.msg? with
    | none => simpa [loadStep, hl, hm] using hs
    | some txt =>
      simp only [loadStep, hl, hm]
      split
      · exact hs
      · unfold addUniqueNode
        split
        · exact hs
        · exact List.mem_append_left _ hs

/-- After one `loadStep`, every accumulated record's node is in the node
set or is the `"unknown"` sentinel. -/
theorem loadStep_invariant (acc : List RosoutMessage × List String) (m : StoredMessage)
    (h : ∀ r ∈ acc.1, r.node ∈ acc.2 ∨ r.node = "unknown") :
    ∀ r ∈ (loadStep acc m).1, r.node ∈ (loadStep acc m).2 ∨ r.node = "unknown" := by
  intro r hr
  cases hl : m.payload.level? with
  | none => simp only [loadStep, hl] at hr ⊢; exact h r hr
  | some lvl =>
    cases hm : m.payload.msg? with
    | none => simp only [loadStep, hl, hm] at hr ⊢; exact h r hr
    | some txt =>
      simp only [loadStep, hl, hm] at hr ⊢
      rw [List.mem_append] at hr
      rcases hr with hr | hr
      · rcases h r hr with hmem | hunk
        · left
          split
          · exact hmem
          · unfold addUniqueNode
            split
            · exact hmem
            · exact List.mem_append_left _ hmem
        · right; exact hunk
      · rw [List.mem_singleton] at hr
        subst hr
        by_cases hn : (m.payload.name == "") = true
        · right; simp [hn]
        · left
          simp only [Bool.not_eq_true] at hn
          simp only [hn, Bool.false_eq_true, if_false]
          unfold addUniqueNode
          split
          · next hc => simpa [List.contains, List.elem_iff] using hc
          · exact List.mem_append_right _ (List.mem_singleton_self _)

/-- The `loadStep` invariant carried through the whole fold. -/
theorem foldl_loadStep_invariant (l : List StoredMessage)
    (acc : List RosoutMessage × List String)
    (h : ∀ r ∈ acc.1, r.node ∈ acc.2 ∨ r.node = "unknown") :
    ∀ r ∈ (l.foldl loadStep acc).1,
      r.node ∈ (l.foldl loadStep acc).2 ∨ r.node = "unknown" := by
  induction l generalizing acc with
  | nil => simpa using h
  | cons m t ih =>
    rw [List.foldl_cons]
    exact ih (loadStep acc m) (loadStep_invariant acc m h)

/-- C8 (amended): after a successful open, the node set contains the
node of every returned record except that a record built from a payload
with no (or an empty) name carries the sentinel node `"unknown"`, which
is not added to the set. -/
theorem load_nodeSet_covers_named (bag : Bag) (res : LoadResult)
    (h : loadRosbagMessages bag = .ok res) :
    ∀ r ∈ res.messages, r.node ∈ res.uniqueNodes ∨ r.node = "unknown" := by
  simp only [loadRosbagMessages] at h
  split at h
  · exact absurd h (by simp)
  · split at h
    · exact absurd h (by simp)
    · simp only [Except.ok.injEq] at h
      subst h
      exact foldl_loadStep_invariant _ ([], []) (by simp)

/-- Witness for C8's amended statement on a concrete successful load:
the single record of `anonBag` carries the sentinel node. -/
theorem load_nodeSet_covers_named_witness :
    ("unknown" : String) ∈ ([] : List String) ∨ ("unknown" : String) = "unknown" :=
  load_nodeSet_covers_named anonBag
    { messages := [{ timestamp := (1 : Nat) + (0 : Nat) / 1000000000,
                     node := "unknown", severity := 2, message := "hi",
                     file := some "", line := some 0, function := some "",
                     topics := some [] }],
      uniqueNodes := [] } rfl
    { timestamp := (1 : Nat) + (0 : Nat) / 1000000000,
      node := "unknown", severity := 2, message := "hi",
      file := some "", line := some 0, function := some "",
      topics := some [] }
    (List.mem_singleton_self _)

/-- C8 counterexample: the container `anonBag` loads successfully, its
only record carries the sentinel node `"unknown"`, and that node is not
a member of the returned node set — refuting the claim that the node set
contains the node name of every returned record. -/
theorem load_nodeSet_counterexample :
    ∃ res, loadRosbagMessages anonBag = Except.ok res ∧
      ∃ r ∈ res.messages, r.node ∉ res.uniqueNodes := by
  refine ⟨{ messages := [{ timestamp := (1 : Nat) + (0 : Nat) / 1000000000,
                           node := "unknown", severity := 2, message := "hi",
                           file := some "", line := some 0, function := some "",
                           topics := some [] }],
            uniqueNodes := [] }, rfl, ?_⟩
  exact ⟨_, List.mem_singleton_self _, by simp⟩

/-- C10 (amended): when `filterMode` is not `AND` and at least one
predicate is active, a record is kept exactly when it is in the input,
passes both time bounds, and at least one active predicate holds. -/
theorem filterMessages_default_OR (compile : String → Option (String → Bool))
    (R : List RosoutMessage) (spec : Filters) (msg : RosoutMessage)
    (hmode : spec.filterMode ≠ some FilterMode.AND)
    (hconds : conditionsFor compile spec msg ≠ []) :
    msg ∈ filterMessages compile R spec ↔
      msg ∈ R ∧ startExcluded spec msg = false ∧ endExcluded spec msg = false ∧
        (conditionsFor compile spec msg).any id = true := by
  rw [filterMessages, List.mem_filter]
  unfold passesFilters
  by_cases h1 : startExcluded spec msg = true
  · simp [h1]
  · by_cases h2 : endExcluded spec msg = true
    · simp [h1, h2]
    · have h3 : (conditionsFor compile spec msg).isEmpty = false := by
        cases hc : conditionsFor compile spec msg with
        | nil => exact absurd hc hconds
        | cons c t => rfl
      simp only [Bool.not_eq_true] at h1 h2
      simp [h1, h2, h3, if_neg hmode]

/-- Witness for C10's amended statement. -/
theorem filterMessages_default_OR_witness :
    sampleMsg ∈ filterMessages noneCompile [sampleMsg] sevSpec ↔
      sampleMsg ∈ [sampleMsg] ∧ startExcluded sevSpec sampleMsg = false ∧
        endExcluded sevSpec sampleMsg = false ∧
        (conditionsFor noneCompile sevSpec sampleMsg).any id = true :=
  filterMessages_default_OR noneCompile [sampleMsg] sevSpec sampleMsg
    (by decide) (by decide)

/-- C10 counterexample: under `lateStartSpec` (no mode given, an active
severity predicate that `sampleMsg` satisfies, and a start bound after
it) the record is still excluded, refuting "passes exactly when at least
one active predicate holds". -/
theorem filterMessages_default_OR_counterexample :
    lateStartSpec.filterMode ≠ some FilterMode.AND ∧
    conditionsFor noneCompile lateStartSpec sampleMsg ≠ [] ∧
    (conditionsFor noneCompile lateStartSpec sampleMsg).any id = true ∧
    sampleMsg ∉ filterMessages noneCompile [sampleMsg] lateStartSpec := by
  exact ⟨by decide, by decide, by decide, by decide⟩

/-- Unknown severities have no symbolic name. -/
theorem severityName?_eq_none (s : Nat) (h : s ∉ [1, 2, 4, 8, 16]) :
    severityName? s = none := by
  have h' : ¬s = 1 ∧ ¬s = 2 ∧ ¬s = 4 ∧ ¬s = 8 ∧ ¬s = 16 := by
    simpa [not_or] using h
  obtain ⟨h1, h2, h4, h8, h16⟩ := h'
  simp [severityName?, SEVERITY_NAMES, List.find?,
    beq_eq_false_iff_ne.mpr (Ne.symm h1), beq_eq_false_iff_ne.mpr (Ne.symm h2),
    beq_eq_false_iff_ne.mpr (Ne.symm h4), beq_eq_false_iff_ne.mpr (Ne.symm h8),
    beq_eq_false_iff_ne.mpr (Ne.symm h16)]

/-- C5: a record with a severity outside {1, 2, 4, 8, 16} is rendered by
all three exports with the severity as the literal raw numeral — the CSV
severity cell, the JSON severity value and the TXT severity bracket are
`String(msg.severity)` — and each export is a total function of the
record. -/
theorem exports_unknown_severity_raw (fmtTime : Timezone → Rat → String)
    (fix6 : Rat → String) (numRepr : Rat → String) (tz : Timezone)
    (msg : RosoutMessage) (h : msg.severity ∉ [1, 2, 4, 8, 16]) :
    exportToCSV fmtTime fix6 [msg] tz =
      String.intercalate "\n"
        [String.intercalate "," csvHeaders,
         String.intercalate ","
           [fix6 msg.timestamp, fmtTime tz msg.timestamp, escapeCSV msg.node,
            natToStr msg.severity, escapeCSV msg.message, escapeCSV (msg.file.getD ""),
            natToStr (msg.line.getD 0), escapeCSV (msg.function.getD ""),
            escapeCSV (String.intercalate ";" (msg.topics.getD []))]] ∧
    exportToJSON fmtTime numRepr [msg] tz =
      stringifyJson (.arr [.obj
        [("timestamp", .num (numRepr msg.timestamp)),
         ("time", .str (fmtTime tz msg.timestamp)),
         ("node", .str msg.node),
         ("severity", .num (natToStr msg.severity)),
         ("message", .str msg.message),
         ("file", .str (msg.file.getD "")),
         ("line", .num (natToStr (msg.line.getD 0))),
         ("function", .str (msg.function.getD "")),
         ("topics", .arr ((msg.topics.getD []).map .str))]]) ∧
    exportToTXT fmtTime [msg] tz =
      String.intercalate "\n"
        [(let location := if !(msg.file.getD "" == "") then
              (msg.file.getD "") ++ ":" ++ natToStr (msg.line.getD 0) else ""
          let line := "[" ++ fmtTime tz msg.timestamp ++ "] [" ++ natToStr msg.severity ++
            "] [" ++ msg.node ++ "]: " ++ msg.message
          if !(location == "") then line ++ " (" ++ location ++ ")" else line)] := by
  have hd : severityDisplay msg.severity = natToStr msg.severity := by
    simp [severityDisplay, severityName?_eq_none msg.severity h]
  have hj : severityJson msg.severity = .num (natToStr msg.severity) := by
    simp [severityJson, severityName?_eq_none msg.severity h]
  refine ⟨?_, ?_, ?_⟩
  · simp [exportToCSV, csvRow, hd]
  · simp [exportToJSON, msgToJson, hj]
  · simp [exportToTXT, txtLine, hd]

/-- Witness for C5 at the concrete severity 99. -/
theorem exports_unknown_severity_raw_witness :
    exportToCSV wFmt wFix6 [sampleMsg99] Timezone.utc =
      String.intercalate "\n"
        [String.intercalate "," csvHeaders,
         String.intercalate ","
           [wFix6 sampleMsg99.timestamp, wFmt Timezone.utc sampleMsg99.timestamp,
            escapeCSV sampleMsg99.node, natToStr sampleMsg99.severity,
            escapeCSV sampleMsg99.message, escapeCSV (sampleMsg99.file.getD ""),
            natToStr (sampleMsg99.line.getD 0), escapeCSV (sampleMsg99.function.getD ""),
            escapeCSV (String.intercalate ";" (sampleMsg99.topics.getD []))]] ∧
    exportToJSON wFmt wNum [sampleMsg99] Timezone.utc =
      stringifyJson (.arr [.obj
        [("timestamp", .num (wNum sampleMsg99.timestamp)),
         ("time", .str (wFmt Timezone.utc sampleMsg99.timestamp)),
         ("node", .str sampleMsg99.node),
         ("severity", .num (natToStr sampleMsg99.severity)),
         ("message", .str sampleMsg99.message),
         ("file", .str (sampleMsg99.file.getD "")),
         ("line", .num (natToStr (sampleMsg99.line.getD 0))),
         ("function", .str (sampleMsg99.function.getD "")),
         ("topics", .arr ((sampleMsg99.topics.getD []).map .str))]]) ∧
    exportToTXT wFmt [sampleMsg99] Timezone.utc =
      String.intercalate "\n"
        [(let location := if !(sampleMsg99.file.getD "" == "") then
              (sampleMsg99.file.getD "") ++ ":" ++ natToStr (sampleMsg99.line.getD 0) else ""
          let line := "[" ++ wFmt Timezone.utc sampleMsg99.timestamp ++ "] [" ++
            natToStr sampleMsg99.severity ++ "] [" ++ sampleMsg99.node ++ "]: " ++
            sampleMsg99.message
          if !(location == "") then line ++ " (" ++ location ++ ")" else line)] :=
  exports_unknown_severity_raw wFmt wFix6 wNum Timezone.utc sampleMsg99 (by decide)

section Counting

variable {α : Type} [DecidableEq α]

/-- Bumping a key makes its looked-up count one larger. -/
theorem lookupCount_bumpCount_same (l : List (α × Nat)) (k : α) :
    lookupCount (bumpCount l k) k = some ((lookupCount l k).getD 0 + 1) := by
  induction l with
  | nil => simp [bumpCount, lookupCount]
  | cons p rest ih =>
    obtain ⟨a, c⟩ := p
    by_cases ha : a = k
    · subst ha
      simp [bumpCount, lookupCount]
    · simp [bumpCount, lookupCount, ha, ih]

/-- Bumping a key leaves other keys' counts alone. -/
theorem lookupCount_bumpCount_ne (l : List (α × Nat)) (k k' : α) (h : k' ≠ k) :
    lookupCount (bumpCount l k) k' = lookupCount l k' := by
  induction l with
  | nil => simp [bumpCount, lookupCount, Ne.symm h]
  | cons p rest ih =>
    obtain ⟨a, c⟩ := p
    by_cases ha : a = k
    · subst ha
      simp [bumpCount, lookupCount, Ne.symm h]
    · simp only [bumpCount, if_neg ha, lookupCount]
      by_cases h2 : a = k' <;> simp [h2, ih]

/-- Bumping appends the key exactly when it was absent. -/
theorem bumpCount_keys (l : List (α × Nat)) (k : α) :
    (bumpCount l k).map Prod.fst =
      if k ∈ l.map Prod.fst then l.map Prod.fst else l.map Prod.fst ++ [k] := by
  induction l with
  | nil => simp [bumpCount]
  | cons p rest ih =>
    obtain ⟨a, c⟩ := p
    by_cases ha : a = k
    · subst ha
      simp [bumpCount]
    · simp only [bumpCount, if_neg ha, List.map_cons, ih]
      by_cases hk : k ∈ rest.map Prod.fst <;>
        simp [hk, List.mem_cons, Ne.symm ha]

/-- Folding the bump over a key list: every looked-up count grows by the
key's number of occurrences, and fresh keys appear exactly when they
occur. -/
theorem foldl_bumpCount_lookup (keys : List α) : ∀ (acc : List (α × Nat)) (k : α),
    lookupCount (keys.foldl bumpCount acc) k =
      match lookupCount acc k with
      | some c => some (c + keys.count k)
      | none => if k ∈ keys then some (keys.count k) else none := by
  induction keys with
  | nil =>
    intro acc k
    simp only [List.foldl_nil, List.count_nil]
    cases lookupCount acc k <;> simp
  | cons x rest ih =>
    intro acc k
    rw [List.foldl_cons, ih (bumpCount acc x) k]
    by_cases hx : x = k
    · subst hx
      rw [lookupCount_bumpCount_same]
      cases hl : lookupCount acc x with
      | none =>
        simp only [hl, Option.getD_none, List.count_cons_self, List.mem_cons, true_or,
          if_true, Option.some.injEq]
        omega
      | some c =>
        simp only [hl, Option.getD_some, List.count_cons_self, Option.some.injEq]
        omega
    · rw [lookupCount_bumpCount_ne acc x k (Ne.symm hx)]
      rw [List.count_cons_of_ne (Ne.symm hx)]
      cases hl : lookupCount acc k <;>
        simp [hl, List.mem_cons, Ne.symm hx]

/-- The count map of `getStatistics` is exact: it maps every occurring
key to its occurrence count and has no other keys. -/
theorem lookupCount_countEntries (keys : List α) (k : α) :
    lookupCount (countEntries keys) k =
      if k ∈ keys then some (keys.count k) else none := by
  have h := foldl_bumpCount_lookup keys [] k
  simpa [countEntries, lookupCount] using h

/-- In a key-nodup association list, membership determines lookup. -/
theorem lookupCount_of_mem_nodup (l : List (α × Nat)) (p : α × Nat)
    (hmem : p ∈ l) (hnd : (l.map Prod.fst).Nodup) :
    lookupCount l p.1 = some p.2 := by
  induction l with
  | nil => simp at hmem
  | cons q rest ih =>
    obtain ⟨a, c⟩ := q
    rw [List.map_cons, List.nodup_cons] at hnd
    rcases List.mem_cons.mp hmem with h | h
    · subst h
      simp [lookupCount]
    · have hne : a ≠ p.1 := by
        intro hh
        exact hnd.1 (hh ▸ List.mem_map.mpr ⟨p, h, rfl⟩)
      simp [lookupCount, hne, ih h hnd.2]

/-- `firstOccs` only depends on the membership of `seen`. -/
theorem firstOccs_congr (l : List α) : ∀ (seen₁ seen₂ : List α),
    (∀ a, a ∈ seen₁ ↔ a ∈ seen₂) → firstOccs seen₁ l = firstOccs seen₂ l := by
  induction l with
  | nil => intro _ _ _; rfl
  | cons x xs ih =>
    intro s₁ s₂ h
    by_cases hx : x ∈ s₁
    · rw [firstOccs, firstOccs, if_pos hx, if_pos ((h x).mp hx)]
      exact ih s₁ s₂ h
    · rw [firstOccs, firstOccs, if_neg hx, if_neg (fun hh => hx ((h x).mpr hh))]
      congr 1
      exact ih _ _ (fun a => by simp [List.mem_cons, h a])

/-- Elements produced by `firstOccs` avoid `seen` and come from `l`. -/
theorem mem_firstOccs (l : List α) : ∀ (seen : List α) (a : α),
    a ∈ firstOccs seen l → a ∉ seen ∧ a ∈ l := by
  induction l with
  | nil => intro seen a h; simp [firstOccs] at h
  | cons x xs ih =>
    intro seen a h
    by_cases hx : x ∈ seen
    · rw [firstOccs, if_pos hx] at h
      obtain ⟨h1, h2⟩ := ih seen a h
      exact ⟨h1, List.mem_cons_of_mem x h2⟩
    · rw [firstOccs, if_neg hx] at h
      rcases List.mem_cons.mp h with h | h
      · subst h; exact ⟨hx, List.mem_cons_self _ _⟩
      · obtain ⟨h1, h2⟩ := ih (x :: seen) a h
        exact ⟨fun hh => h1 (List.mem_cons_of_mem x hh), List.mem_cons_of_mem x h2⟩

/-- `firstOccs` never repeats an element. -/
theorem firstOccs_nodup (l : List α) : ∀ seen, (firstOccs seen l).Nodup := by
  induction l with
  | nil => intro _; simp [firstOccs]
  | cons x xs ih =>
    intro seen
    by_cases hx : x ∈ seen
    · rw [firstOccs, if_pos hx]; exact ih seen
    · rw [firstOccs, if_neg hx]
      refine List.nodup_cons.mpr ⟨?_, ih (x :: seen)⟩
      intro hmem
      exact (mem_firstOccs xs (x :: seen) x hmem).1 (List.mem_cons_self _ _)

/-- Every unseen occurring element shows up in `firstOccs`. -/
theorem mem_firstOccs_of_mem (l : List α) : ∀ (seen : List α) (a : α),
    a ∈ l → a ∉ seen → a ∈ firstOccs seen l := by
  induction l with
  | nil => intro _ a h _; simp at h
  | cons x xs ih =>
    intro seen a hl hs
    by_cases hx : x ∈ seen
    · rw [firstOccs, if_pos hx]
      rcases List.mem_cons.mp hl with h | h
      · subst h; exact absurd hx hs
      · exact ih seen a h hs
    · rw [firstOccs, if_neg hx]
      by_cases hax : a = x
      · subst hax; exact List.mem_cons_self _ _
      · rcases List.mem_cons.mp hl with h | h
        · exact absurd h hax
        · exact List.mem_cons_of_mem _
            (ih (x :: seen) a h (by simp [List.mem_cons, hax, hs]))

/-- `firstOccs` lists elements in order of their first index. -/
theorem firstOccs_pairwise_indexOf (l : List α) : ∀ seen,
    (firstOccs seen l).Pairwise (fun a b => l.indexOf a < l.indexOf b) := by
  induction l with
  | nil => intro _; simp [firstOccs]
  | cons x xs ih =>
    intro seen
    by_cases hx : x ∈ seen
    · rw [firstOccs, if_pos hx]
      refine List.Pairwise.imp_of_mem ?_ (ih seen)
      intro a b ha hb hab
      have hax : a ≠ x := fun hh => (mem_firstOccs xs seen a ha).1 (hh ▸ hx)
      have hbx : b ≠ x := fun hh => (mem_firstOccs xs seen b hb).1 (hh ▸ hx)
      rw [List.indexOf_cons_ne _ (Ne.symm hax), List.indexOf_cons_ne _ (Ne.symm hbx)]
      omega
    · rw [firstOccs, if_neg hx]
      refine List.pairwise_cons.mpr ⟨?_, ?_⟩
      · intro b hb
        have hbx : b ≠ x := fun hh =>
          (mem_firstOccs xs (x :: seen) b hb).1 (hh ▸ List.mem_cons_self _ _)
        rw [List.indexOf_cons_self, List.indexOf_cons_ne _ (Ne.symm hbx)]
        omega
      · refine List.Pairwise.imp_of_mem ?_ (ih (x :: seen))
        intro a b ha hb hab
        have hax : a ≠ x := fun hh =>
          (mem_firstOccs xs (x :: seen) a ha).1 (hh ▸ List.mem_cons_self _ _)
        have hbx : b ≠ x := fun hh =>
          (mem_firstOccs xs (x :: seen) b hb).1 (hh ▸ List.mem_cons_self _ _)
        rw [List.indexOf_cons_ne _ (Ne.symm hax), List.indexOf_cons_ne _ (Ne.symm hbx)]
        omega

/-- The keys accumulated by the count fold, in first-encounter order. -/
theorem foldl_bumpCount_keys (keys : List α) : ∀ acc : List (α × Nat),
    (keys.foldl bumpCount acc).map Prod.fst =
      acc.map Prod.fst ++ firstOccs (acc.map Prod.fst) keys := by
  induction keys with
  | nil => intro acc; simp [firstOccs]
  | cons x rest ih =>
    intro acc
    rw [List.foldl_cons, ih (bumpCount acc x), bumpCount_keys]
    by_cases hx : x ∈ acc.map Prod.fst
    · rw [if_pos hx, firstOccs, if_pos hx]
    · rw [if_neg hx, firstOccs, if_neg hx, List.append_assoc, List.singleton_append]
      congr 2
      exact firstOccs_congr rest _ _ (fun a => by simp [List.mem_append, List.mem_cons, or_comm])

/-- The keys of `countEntries` are the input's first occurrences. -/
theorem countEntries_keys (keys : List α) :
    (countEntries keys).map Prod.fst = firstOccs [] keys := by
  simpa [countEntries] using foldl_bumpCount_keys keys []

end Counting

/-- Stable insertion permutes. -/
theorem insertByCount_perm {β : Type} (x : β × Nat) (l : List (β × Nat)) :
    List.Perm (insertByCount x l) (x :: l) := by
  induction l with
  | nil => exact List.Perm.refl _
  | cons y rest ih =>
    rw [insertByCount]
    split
    · exact (ih.cons y).trans (List.Perm.swap x y rest)
    · exact List.Perm.refl _

/-- The stable sort permutes. -/
theorem sortByCountDesc_perm {β : Type} (l : List (β × Nat)) :
    List.Perm (sortByCountDesc l) l := by
  induction l with
  | nil => exact List.Perm.refl _
  | cons x xs ih =>
    exact (insertByCount_perm x _).trans (ih.cons x)

/-- Inserting an element whose first index precedes everything present
preserves the count-descending, index-ascending pairwise order. -/
theorem insertByCount_pairwise {β : Type} (idx : β → Nat) (x : β × Nat)
    (l : List (β × Nat))
    (hl : l.Pairwise (fun p q => q.2 < p.2 ∨ (p.2 = q.2 ∧ idx p.1 < idx q.1)))
    (hx : ∀ y ∈ l, idx x.1 < idx y.1) :
    (insertByCount x l).Pairwise
      (fun p q => q.2 < p.2 ∨ (p.2 = q.2 ∧ idx p.1 < idx q.1)) := by
  induction l with
  | nil => simp [insertByCount]
  | cons y rest ih =>
    rw [insertByCount]
    rw [List.pairwise_cons] at hl
    split
    · next hgt =>
      refine List.pairwise_cons.mpr
        ⟨?_, ih hl.2 (fun z hz => hx z (List.mem_cons_of_mem y hz))⟩
      intro z hz
      have hz' : z = x ∨ z ∈ rest := by
        simpa [List.mem_cons] using (insertByCount_perm x rest).mem_iff.mp hz
      rcases hz' with rfl | hz'
      · left; exact hgt
      · exact hl.1 z hz'
    · next hle =>
      push_neg at hle
      refine List.pairwise_cons.mpr ⟨?_, List.pairwise_cons.mpr ⟨hl.1, hl.2⟩⟩
      intro z hz
      rcases List.mem_cons.mp hz with rfl | hz'
      · rcases Nat.lt_or_ge z.2 x.2 with hlt | hge
        · left; exact hlt
        · right; exact ⟨by omega, hx z (List.mem_cons_self _ _)⟩
      · rcases hl.1 z hz' with hzy | ⟨heq, _⟩
        · left; omega
        · rcases Nat.lt_or_ge z.2 x.2 with hlt | hge2
          · left; exact hlt
          · right; exact ⟨by omega, hx z (List.mem_cons_of_mem y hz')⟩

/-- A list given in ascending first-index order sorts into the
count-descending order with ties in first-index order. -/
theorem sortByCountDesc_pairwise {β : Type} (idx : β → Nat) (l : List (β × Nat))
    (hl : l.Pairwise (fun p q => idx p.1 < idx q.1)) :
    (sortByCountDesc l).Pairwise
      (fun p q => q.2 < p.2 ∨ (p.2 = q.2 ∧ idx p.1 < idx q.1)) := by
  induction l with
  | nil => simp [sortByCountDesc]
  | cons x xs ih =>
    rw [sortByCountDesc]
    rw [List.pairwise_cons] at hl
    exact insertByCount_pairwise idx x _ (ih hl.2)
      (fun y hy => hl.1 y ((sortByCountDesc_perm xs).mem_iff.mp hy))

/-- An element of a list is in its `take`, unless the `take` is full. -/
theorem mem_take_or_len {β : Type} (l : List β) (a : β) (k : Nat) (h : a ∈ l) :
    a ∈ l.take k ∨ (l.take k).length = k := by
  by_cases hl : l.length ≤ k
  · left; rw [List.take_of_length_le hl]; exact h
  · right; rw [List.length_take]; omega

/-- C9: `topNodes` has at most five entries, lists distinct nodes that
occur in the input with their exact occurrence counts, is ordered by
count descending with ties broken by the order of first encounter,
omits an occurring node only when five entries are already present, and
every occurring node omitted from the list ranks strictly below each
kept entry (smaller count, or an equal count with a later first
occurrence) — so the kept entries are the truncation of the full
ranking. -/
theorem getStatistics_topNodes_spec (R : List RosoutMessage) :
    (getStatistics R).topNodes.length ≤ 5 ∧
    ((getStatistics R).topNodes.map Prod.fst).Nodup ∧
    (∀ p ∈ (getStatistics R).topNodes,
        p.1 ∈ R.map (fun m => m.node) ∧ p.2 = (R.map (fun m => m.node)).count p.1) ∧
    (getStatistics R).topNodes.Pairwise (fun p q => q.2 ≤ p.2) ∧
    (getStatistics R).topNodes.Pairwise (fun p q => p.2 = q.2 →
        (R.map (fun m => m.node)).indexOf p.1 < (R.map (fun m => m.node)).indexOf q.1) ∧
    (∀ n ∈ R.map (fun m => m.node),
        n ∈ (getStatistics R).topNodes.map Prod.fst ∨
          (getStatistics R).topNodes.length = 5) ∧
    (∀ n ∈ R.map (fun m => m.node),
        n ∉ (getStatistics R).topNodes.map Prod.fst →
        ∀ p ∈ (getStatistics R).topNodes,
          (R.map (fun m => m.node)).count n < p.2 ∨
            (p.2 = (R.map (fun m => m.node)).count n ∧
              (R.map (fun m => m.node)).indexOf p.1 <
                (R.map (fun m => m.node)).indexOf n)) := by
  have ht : (getStatistics R).topNodes
      = (sortByCountDesc (countEntries (R.map (fun m => m.node)))).take 5 := rfl
  set nodes := R.map (fun m => m.node) with hnodes
  set entries := countEntries nodes with hentries
  have hkeys : entries.map Prod.fst = firstOccs [] nodes := countEntries_keys nodes
  have hknd : (entries.map Prod.fst).Nodup := by
    rw [hkeys]; exact firstOccs_nodup nodes []
  have hperm : List.Perm (sortByCountDesc entries) entries := sortByCountDesc_perm entries
  have hpwe : entries.Pairwise (fun p q => nodes.indexOf p.1 < nodes.indexOf q.1) := by
    have h1 : (entries.map Prod.fst).Pairwise
        (fun a b => nodes.indexOf a < nodes.indexOf b) := by
      rw [hkeys]; exact firstOccs_pairwise_indexOf nodes []
    exact List.Pairwise.of_map Prod.fst (fun a b hh => hh) h1
  have hsorted := sortByCountDesc_pairwise (fun n => nodes.indexOf n) entries hpwe
  refine ⟨?_, ?_, ?_, ?_, ?_, ?_, ?_⟩
  · rw [ht]; exact List.length_take_le 5 _
  · rw [ht, List.map_take]
    exact ((hperm.map Prod.fst).nodup_iff.mpr hknd).sublist (List.take_sublist _ _)
  · intro p hp
    rw [ht] at hp
    have hp2 : p ∈ sortByCountDesc entries := List.take_subset _ _ hp
    have hp3 : p ∈ entries := hperm.mem_iff.mp hp2
    have hl := lookupCount_of_mem_nodup entries p hp3 hknd
    have hlc := lookupCount_countEntries nodes p.1
    by_cases hmem : p.1 ∈ nodes
    · rw [if_pos hmem, ← hentries] at hlc
      rw [hl] at hlc
      exact ⟨hmem, Option.some.inj hlc⟩
    · rw [if_neg hmem, ← hentries] at hlc
      rw [hl] at hlc
      exact absurd hlc (by simp)
  · rw [ht]
    refine List.Pairwise.sublist (List.take_sublist _ _) ?_
    exact hsorted.imp (fun hab => by rcases hab with h | ⟨h, _⟩ <;> omega)
  · rw [ht]
    refine List.Pairwise.sublist (List.take_sublist _ _) ?_
    exact hsorted.imp (fun hab heq => by
      rcases hab with h | ⟨h1, h2⟩
      · omega
      · exact h2)
  · intro n hn
    have h1 : n ∈ entries.map Prod.fst := by
      rw [hkeys]; exact mem_firstOccs_of_mem nodes [] n hn (by simp)
    have h2 : n ∈ (sortByCountDesc entries).map Prod.fst :=
      (hperm.map Prod.fst).mem_iff.mpr h1
    rw [ht]
    rcases mem_take_or_len ((sortByCountDesc entries).map Prod.fst) n 5 h2 with h3 | h3
    · left; rw [List.map_take]; exact h3
    · right
      rw [List.length_take] at h3 ⊢
      rw [List.length_map] at h3
      omega
  · intro n hn hnot p hp
    have h1 : n ∈ entries.map Prod.fst := by
      rw [hkeys]; exact mem_firstOccs_of_mem nodes [] n hn (by simp)
    have h2 : n ∈ (sortByCountDesc entries).map Prod.fst :=
      (hperm.map Prod.fst).mem_iff.mpr h1
    obtain ⟨e, he, hefst⟩ := List.mem_map.mp h2
    have he_ent : e ∈ entries := hperm.mem_iff.mp he
    have hl := lookupCount_of_mem_nodup entries e he_ent hknd
    have hlc := lookupCount_countEntries nodes e.1
    have hmemn : e.1 ∈ nodes := by rw [hefst]; exact hn
    rw [if_pos hmemn, ← hentries] at hlc
    rw [hl] at hlc
    have hcnt : e.2 = nodes.count e.1 := Option.some.inj hlc
    have henotin : e ∉ (sortByCountDesc entries).take 5 := by
      intro hin
      exact hnot (by rw [ht]; exact List.mem_map.mpr ⟨e, hin, hefst⟩)
    have hedrop : e ∈ (sortByCountDesc entries).drop 5 := by
      have hmem := he
      rw [← List.take_append_drop 5 (sortByCountDesc entries)] at hmem
      rcases List.mem_append.mp hmem with h | h
      · exact absurd h henotin
      · exact h
    have hsplit : ((sortByCountDesc entries).take 5 ++
        (sortByCountDesc entries).drop 5).Pairwise
        (fun p q => q.2 < p.2 ∨ (p.2 = q.2 ∧ nodes.indexOf p.1 < nodes.indexOf q.1)) := by
      rw [List.take_append_drop]
      exact hsorted
    have hcross := (List.pairwise_append.mp hsplit).2.2
    rw [ht] at hp
    have hS := hcross p hp e hedrop
    rw [hcnt, hefst] at hS
    exact hS

/-- Witness for C9 on a concrete record list. -/
theorem getStatistics_topNodes_spec_witness :
    (getStatistics [sampleMsg, sampleMsg99]).topNodes.length ≤ 5 :=
  (getStatistics_topNodes_spec [sampleMsg, sampleMsg99]).1

/-!  Equation lemmas for the stringify model. -/

theorem serJson_null (ind : Nat) : serJson ind Json.null = ['n', 'u', 'l', 'l'] := by
  simp [serJson]

theorem serJson_true (ind : Nat) : serJson ind (Json.bool true) = ['t', 'r', 'u', 'e'] := by
  simp [serJson]

theorem serJson_false (ind : Nat) :
    serJson ind (Json.bool false) = ['f', 'a', 'l', 's', 'e'] := by
  simp [serJson]

theorem serJson_num (ind : Nat) (lit : String) : serJson ind (Json.num lit) = lit.data := by
  simp [serJson]

theorem serJson_str (ind : Nat) (s : String) : serJson ind (Json.str s) = quoteChars s := by
  simp [serJson]

theorem serJson_arr_nil (ind : Nat) : serJson ind (Json.arr []) = ['[', ']'] := by
  simp [serJson]

theorem serJson_arr_cons (ind : Nat) (x : Json) (xs : List Json) :
    serJson ind (Json.arr (x :: xs)) =
      '[' :: '\n' ::
        (joinChars [',', '\n']
          ((x :: xs).map (fun y => padChars (ind + 2) ++ serJson (ind + 2) y)) ++
         ('\n' :: padChars ind ++ [']'])) := by
  rw [serJson]
  simp [List.attach_map_coe]

theorem serJson_obj_nil (ind : Nat) : serJson ind (Json.obj []) = ['{', '}'] := by
  simp [serJson]

theorem serJson_obj_cons (ind : Nat) (p : String × Json) (fs : List (String × Json)) :
    serJson ind (Json.obj (p :: fs)) =
      '{' :: '\n' ::
        (joinChars [',', '\n']
          ((p :: fs).map (fun q =>
            padChars (ind + 2) ++ quoteChars q.1 ++ (':' :: ' ' :: serJson (ind + 2) q.2))) ++
         ('\n' :: padChars ind ++ ['}'])) := by
  rw [serJson]
  rw [List.attach_map_coe (p :: fs) (fun q =>
    padChars (ind + 2) ++ quoteChars q.1 ++ (':' :: ' ' :: serJson (ind + 2) q.2))]

theorem jsonNumWF_num (lit : String) : jsonNumWF (Json.num lit) = numToken lit := by
  rw [jsonNumWF]

theorem jsonNumWF_arr (xs : List Json) :
    jsonNumWF (Json.arr xs) = (xs.map jsonNumWF).all id := by
  rw [jsonNumWF]
  simp [List.attach_map_coe]

theorem jsonNumWF_obj (fs : List (String × Json)) :
    jsonNumWF (Json.obj fs) = (fs.map (fun q => jsonNumWF q.2)).all id := by
  rw [jsonNumWF]
  rw [List.attach_map_coe fs (fun q => jsonNumWF q.2)]

theorem jsonNumWF_arr_forall (xs : List Json) :
    jsonNumWF (Json.arr xs) = true ↔ ∀ y ∈ xs, jsonNumWF y = true := by
  rw [jsonNumWF_arr]
  simp [List.all_eq_true]

theorem jsonNumWF_obj_forall (fs : List (String × Json)) :
    jsonNumWF (Json.obj fs) = true ↔ ∀ q ∈ fs, jsonNumWF q.2 = true := by
  rw [jsonNumWF_obj]
  simp [List.all_eq_true]

theorem jsonFuel_null : jsonFuel Json.null = 1 := by simp [jsonFuel]

theorem jsonFuel_bool (b : Bool) : jsonFuel (Json.bool b) = 1 := by simp [jsonFuel]

theorem jsonFuel_num (lit : String) : jsonFuel (Json.num lit) = 1 := by simp [jsonFuel]

theorem jsonFuel_str (s : String) : jsonFuel (Json.str s) = 1 := by simp [jsonFuel]

theorem jsonFuel_arr (xs : List Json) :
    jsonFuel (Json.arr xs) = 1 + (xs.map (fun x => 2 + jsonFuel x)).sum := by
  rw [jsonFuel]
  simp [List.attach_map_coe]

theorem jsonFuel_obj (fs : List (String × Json)) :
    jsonFuel (Json.obj fs) = 1 + (fs.map (fun q => 2 + jsonFuel q.2)).sum := by
  rw [jsonFuel]
  rw [List.attach_map_coe fs (fun q => 2 + jsonFuel q.2)]

theorem jsonFuel_pos (j : Json) : 1 ≤ jsonFuel j := by
  cases j with
  | null => simp [jsonFuel_null]
  | bool b => simp [jsonFuel_bool]
  | num lit => simp [jsonFuel_num]
  | str s => simp [jsonFuel_str]
  | arr xs => rw [jsonFuel_arr]; omega
  | obj fs => rw [jsonFuel_obj]; omega

/-!  Whitespace-skipping lemmas. -/

theorem skipWs_cons_not (c : Char) (cs : List Char) (h : isWsChar c = false) :
    skipWs (c :: cs) = c :: cs := by
  simp [skipWs, h]

theorem skipWs_pad (n : Nat) (cs : List Char) : skipWs (padChars n ++ cs) = skipWs cs := by
  induction n with
  | zero => simp [padChars]
  | succ k ih =>
    rw [padChars, List.replicate_succ, List.cons_append]
    rw [show skipWs (' ' :: (List.replicate k ' ' ++ cs)) =
        skipWs (List.replicate k ' ' ++ cs) from by simp [skipWs, isWsChar]]
    exact ih

theorem skipWs_newline (cs : List Char) : skipWs ('\n' :: cs) = skipWs cs := by
  simp [skipWs, isWsChar]

theorem skipWs_idem (cs : List Char) : skipWs (skipWs cs) = skipWs cs := by
  induction cs with
  | nil => rfl
  | cons c t ih =>
    by_cases h : isWsChar c = true
    · rw [show skipWs (c :: t) = skipWs t from by simp [skipWs, h]]
      exact ih
    · rw [Bool.not_eq_true] at h
      rw [skipWs_cons_not c t h, skipWs_cons_not c t h]

theorem parseValue_skipWs (f : Nat) (input : List Char) :
    parseValue f input = parseValue f (skipWs input) := by
  cases f with
  | zero => rfl
  | succ f =>
    simp only [parseValue]
    rw [skipWs_idem]

theorem parseItems_skipWs (f : Nat) (input : List Char) :
    parseItems f input = parseItems f (skipWs input) := by
  cases f with
  | zero => rfl
  | succ f =>
    simp only [parseItems]
    rw [parseValue_skipWs f input]

theorem parseFields_skipWs (f : Nat) (input : List Char) :
    parseFields f input = parseFields f (skipWs input) := by
  cases f with
  | zero => rfl
  | succ f =>
    simp only [parseFields]
    rw [skipWs_idem]

/-!  Character-class facts. -/

theorem ws_not_num (c : Char) (h : isWsChar c = true) : numTokenChar c = false := by
  simp only [isWsChar, Bool.or_eq_true, beq_iff_eq] at h
  rcases h with ((rfl | rfl) | rfl) | rfl <;> decide

theorem numTokenChar_not_ws (c : Char) (h : numTokenChar c = true) : isWsChar c = false := by
  cases hw : isWsChar c with
  | false => rfl
  | true => rw [ws_not_num c hw] at h; exact absurd h (by simp)

theorem numTokenChar_ne (c x : Char) (hc : numTokenChar c = true)
    (hx : numTokenChar x = false) : (c == x) = false := by
  cases hbe : c == x with
  | false => rfl
  | true =>
    have : c = x := eq_of_beq hbe
    rw [this, hx] at hc
    exact absurd hc (by simp)

/-!  The string-literal round trip. -/

theorem escChar_length_pos (c : Char) : 1 ≤ (escChar c).length := by
  unfold escChar
  split_ifs <;> simp

theorem escapeChars_length_ge (l : List Char) : l.length ≤ (escapeChars l).length := by
  induction l with
  | nil => simp [escapeChars]
  | cons c cs ih =>
    have h := escChar_length_pos c
    simp only [escapeChars, List.length_append, List.length_cons]
    omega

theorem hexVal_hexDigitChar : ∀ n, n < 16 → hexVal (hexDigitChar n) = some n := by
  decide

theorem charOfNat_toNat (c : Char) : Char.ofNat c.toNat = c := by
  have hv : c.toNat.isValidChar := c.valid
  apply Char.eq_of_val_eq
  rw [Char.ofNat, dif_pos hv]
  apply UInt32.eq_of_toBitVec_eq
  apply BitVec.eq_of_toNat_eq
  rw [Char.ofNatAux]
  simp [BitVec.toNat_ofNatLt]
  rfl

theorem parseStrBody_rt : ∀ (l : List Char) (fuel : Nat) (rest : List Char),
    l.length < fuel →
    parseStrBody fuel (escapeChars l ++ ('"' :: rest)) = some (l, rest) := by
  intro l
  induction l with
  | nil =>
    intro fuel rest h
    cases fuel with
    | zero => omega
    | succ f => simp [escapeChars, parseStrBody]
  | cons c cs ih =>
    intro fuel rest h
    cases fuel with
    | zero => omega
    | succ f =>
      have hf : cs.length < f := by
        simp only [List.length_cons] at h
        omega
      rw [escapeChars, List.append_assoc]
      unfold escChar
      split_ifs with h1 h2 h3 h4 h5 h6 h7 h8
      · rw [eq_of_beq h1]
        simp [parseStrBody, escCode, ih f rest hf]
      · rw [eq_of_beq h2]
        simp [parseStrBody, escCode, ih f rest hf]
      · rw [eq_of_beq h3]
        simp [parseStrBody, escCode, ih f rest hf]
      · rw [eq_of_beq h4]
        simp [parseStrBody, escCode, ih f rest hf]
      · rw [eq_of_beq h5]
        simp [parseStrBody, escCode, ih f rest hf]
      · rw [eq_of_beq h6]
        simp [parseStrBody, escCode, ih f rest hf]
      · rw [eq_of_beq h7]
        simp [parseStrBody, escCode, ih f rest hf]
      · have hdiv : c.toNat / 16 < 16 := by omega
        have hmod : c.toNat % 16 < 16 := by omega
        have harith : 0 * 4096 + 0 * 256 + c.toNat / 16 * 16 + c.toNat % 16 = c.toNat := by
          omega
        simp only [List.cons_append, parseStrBody]
        rw [show (('\\' : Char) == '"') = false from by decide]
        rw [show (('\\' : Char) == '\\') = true from by decide]
        simp only [Bool.false_eq_true, if_false, if_true, List.append_eq, List.cons_append]
        rw [hexVal_hexDigitChar _ hdiv, hexVal_hexDigitChar _ hmod]
        rw [show hexVal '0' = some 0 from by decide]
        simp [ih f rest hf]
        rw [show c.toNat / 16 * 16 + c.toNat % 16 = c.toNat from by omega]
        exact charOfNat_toNat c
      · simp [parseStrBody, h1, h2, ih f rest hf]

theorem parseValue_str_rt (f : Nat) (s : String) (rest : List Char) :
    parseValue (f + 1) (quoteChars s ++ rest) = some (.str s, rest) := by
  have hlen : s.data.length < (escapeChars s.data ++ ('"' :: rest)).length := by
    have h := escapeChars_length_ge s.data
    simp only [List.length_append, List.length_cons]
    omega
  rw [quoteChars, List.cons_append, List.append_assoc, List.singleton_append]
  simp only [parseValue]
  rw [skipWs_cons_not _ _ (by decide)]
  simp only [show (('"' : Char) == '"') = true from by decide, if_true]
  rw [parseStrBody_rt s.data _ rest hlen]

theorem spanNum_append (tok rest : List Char)
    (htok : ∀ c ∈ tok, numTokenChar c = true)
    (hrest : ∀ c, rest.head? = some c → numTokenChar c = false) :
    spanNum (tok ++ rest) = (tok, rest) := by
  induction tok with
  | nil =>
    simp only [List.nil_append]
    cases rest with
    | nil => rfl
    | cons r rs => simp [spanNum, hrest r (by simp)]
  | cons c cs ih =>
    have hc := htok c (List.mem_cons_self _ _)
    simp [spanNum, hc, ih (fun d hd => htok d (List.mem_cons_of_mem _ hd))]

theorem parseValue_num_rt (f : Nat) (lit : String) (rest : List Char)
    (hne : lit.data ≠ []) (hall : ∀ c ∈ lit.data, numTokenChar c = true)
    (hrest : ∀ c, rest.head? = some c → numTokenChar c = false) :
    parseValue (f + 1) (lit.data ++ rest) = some (.num lit, rest) := by
  obtain ⟨c0, cs0, hl⟩ : ∃ c0 cs0, lit.data = c0 :: cs0 := by
    cases hld : lit.data with
    | nil => exact absurd hld hne
    | cons a b => exact ⟨a, b, rfl⟩
  have hc0 : numTokenChar c0 = true := hall c0 (hl ▸ List.mem_cons_self _ _)
  have hws : isWsChar c0 = false := numTokenChar_not_ws c0 hc0
  rw [hl, List.cons_append]
  simp only [parseValue]
  rw [skipWs_cons_not _ _ hws]
  simp only [numTokenChar_ne c0 '"' hc0 (by decide),
    numTokenChar_ne c0 '[' hc0 (by decide), numTokenChar_ne c0 '{' hc0 (by decide),
    numTokenChar_ne c0 't' hc0 (by decide), numTokenChar_ne c0 'f' hc0 (by decide),
    numTokenChar_ne c0 'n' hc0 (by decide), Bool.false_eq_true, if_false, hc0, if_true]
  rw [← List.cons_append, ← hl, spanNum_append lit.data rest hall hrest]

/-- The first character of a serialized value: never whitespace, never a
closing bracket or brace. -/
theorem serJson_head (ind : Nat) (j : Json) (hwf : jsonNumWF j = true) :
    ∃ d ds, serJson ind j = d :: ds ∧ isWsChar d = false ∧ d ≠ ']' ∧ d ≠ '}' := by
  cases j with
  | null => refine ⟨'n', _, serJson_null ind, ?_, ?_, ?_⟩ <;> decide
  | bool b =>
    cases b with
    | true => refine ⟨'t', _, serJson_true ind, ?_, ?_, ?_⟩ <;> decide
    | false => refine ⟨'f', _, serJson_false ind, ?_, ?_, ?_⟩ <;> decide
  | num lit =>
    rw [jsonNumWF_num, numToken, Bool.and_eq_true] at hwf
    obtain ⟨c0, cs0, hl⟩ : ∃ c0 cs0, lit.data = c0 :: cs0 := by
      cases hld : lit.data with
      | nil => rw [hld] at hwf; exact absurd hwf.1 (by simp)
      | cons a b => exact ⟨a, b, rfl⟩
    have hc0 : numTokenChar c0 = true := by
      have h2 := hwf.2
      rw [List.all_eq_true] at h2
      exact h2 c0 (hl ▸ List.mem_cons_self _ _)
    refine ⟨c0, cs0, by rw [serJson_num, hl], numTokenChar_not_ws c0 hc0, ?_, ?_⟩
    · intro hc; rw [hc] at hc0; exact absurd hc0 (by decide)
    · intro hc; rw [hc] at hc0; exact absurd hc0 (by decide)
  | str s =>
    refine ⟨'"', _, by rw [serJson_str, quoteChars], ?_, ?_, ?_⟩ <;> decide
  | arr xs =>
    cases xs with
    | nil => refine ⟨'[', _, serJson_arr_nil ind, ?_, ?_, ?_⟩ <;> decide
    | cons x xs => refine ⟨'[', _, serJson_arr_cons ind x xs, ?_, ?_, ?_⟩ <;> decide
  | obj fs =>
    cases fs with
    | nil => refine ⟨'{', _, serJson_obj_nil ind, ?_, ?_, ?_⟩ <;> decide
    | cons p fs => refine ⟨'{', _, serJson_obj_cons ind p fs, ?_, ?_, ?_⟩ <;> decide

theorem skipWs_space (cs : List Char) : skipWs (' ' :: cs) = skipWs cs := by
  simp [skipWs, isWsChar]

theorem headNumFree_newline (X : List Char) :
    ∀ c, ('\n' :: X).head? = some c → numTokenChar c = false := by
  intro c hc
  simp only [List.head?_cons, Option.some.injEq] at hc
  rw [← hc]
  decide

theorem headNumFree_comma (X : List Char) :
    ∀ c, (',' :: X).head? = some c → numTokenChar c = false := by
  intro c hc
  simp only [List.head?_cons, Option.some.injEq] at hc
  rw [← hc]
  decide

theorem headNumFree_nil :
    ∀ c, ([] : List Char).head? = some c → numTokenChar c = false := by
  intro c hc
  simp at hc

/-- The parser inverts the serializer: one strong induction on the fuel
covering values, array items and object members. -/
theorem parse_serJson_master : ∀ fuel : Nat,
    (∀ (j : Json) (ind : Nat) (rest : List Char), jsonNumWF j = true → jsonFuel j ≤ fuel →
      (∀ c, rest.head? = some c → numTokenChar c = false) →
      parseValue fuel (serJson ind j ++ rest) = some (j, rest)) ∧
    (∀ (x : Json) (xs : List Json) (ind m : Nat) (rest : List Char),
      jsonNumWF (Json.arr (x :: xs)) = true →
      ((x :: xs).map (fun y => 2 + jsonFuel y)).sum ≤ fuel →
      parseItems fuel
        ('\n' :: (joinChars [',', '\n']
            ((x :: xs).map fun y => padChars ind ++ serJson ind y) ++
          ('\n' :: (padChars m ++ (']' :: rest))))) = some (x :: xs, rest)) ∧
    (∀ (p : String × Json) (fs : List (String × Json)) (ind m : Nat) (rest : List Char),
      jsonNumWF (Json.obj (p :: fs)) = true →
      ((p :: fs).map (fun q => 2 + jsonFuel q.2)).sum ≤ fuel →
      parseFields fuel
        ('\n' :: (joinChars [',', '\n']
            ((p :: fs).map fun q =>
              padChars ind ++ (quoteChars q.1 ++ (':' :: ' ' :: serJson ind q.2))) ++
          ('\n' :: (padChars m ++ ('}' :: rest))))) = some (p :: fs, rest)) := by
  intro fuel
  induction fuel using Nat.strong_induction_on with
  | _ fuel ih =>
  refine ⟨?_, ?_, ?_⟩
  · -- values
    intro j ind rest hwf hfuel hrest
    have h1 : 1 ≤ jsonFuel j := jsonFuel_pos j
    obtain ⟨f, rfl⟩ : ∃ f, fuel = f + 1 := ⟨fuel - 1, by omega⟩
    cases j with
    | null => rw [serJson_null]; rfl
    | bool b =>
      cases b with
      | true => rw [serJson_true]; rfl
      | false => rw [serJson_false]; rfl
    | num lit =>
      rw [serJson_num]
      rw [jsonNumWF_num, numToken, Bool.and_eq_true] at hwf
      refine parseValue_num_rt f lit rest ?_ ?_ hrest
      · intro hnil; rw [hnil] at hwf; exact absurd hwf.1 (by simp)
      · have h2 := hwf.2
        rw [List.all_eq_true] at h2
        exact h2
    | str s =>
      rw [serJson_str]
      exact parseValue_str_rt f s rest
    | arr xs =>
      rw [jsonNumWF_arr_forall] at hwf
      rw [jsonFuel_arr] at hfuel
      cases xs with
      | nil => rw [serJson_arr_nil]; rfl
      | cons x xs =>
        have hwx : jsonNumWF x = true := hwf x (List.mem_cons_self _ _)
        obtain ⟨c0, cs0, hser, hws0, hbr0, hbc0⟩ := serJson_head (ind + 2) x hwx
        obtain ⟨T, hT⟩ : ∃ T, joinChars [',', '\n']
            ((x :: xs).map fun y => padChars (ind + 2) ++ serJson (ind + 2) y)
            = padChars (ind + 2) ++ (serJson (ind + 2) x ++ T) := by
          cases xs with
          | nil => exact ⟨[], by simp [joinChars]⟩
          | cons y ys =>
            refine ⟨',' :: '\n' :: joinChars [',', '\n']
              ((y :: ys).map fun z => padChars (ind + 2) ++ serJson (ind + 2) z), ?_⟩
            simp [joinChars, List.append_assoc]
        rw [serJson_arr_cons]
        simp only [List.cons_append, List.append_assoc, List.singleton_append, List.nil_append]
        have hsq : ∀ cs : List Char, skipWs ('[' :: cs) = '[' :: cs :=
          fun cs => skipWs_cons_not '[' cs (by decide)
        simp only [parseValue, hsq]
        rw [if_neg (show ¬((('[' : Char) == '"') = true) from by decide)]
        rw [if_pos (show (('[' : Char) == '[') = true from by decide)]
        have hskip : skipWs ('\n' :: (joinChars [',', '\n']
            ((x :: xs).map fun y => padChars (ind + 2) ++ serJson (ind + 2) y) ++
            ('\n' :: (padChars ind ++ (']' :: rest)))))
            = c0 :: (cs0 ++ (T ++ ('\n' :: (padChars ind ++ (']' :: rest))))) := by
          rw [skipWs_newline, hT, List.append_assoc, skipWs_pad, List.append_assoc, hser,
            List.cons_append]
          exact skipWs_cons_not c0 _ hws0
        rw [if_neg (show ¬((skipWs ('\n' :: (joinChars [',', '\n']
            ((x :: xs).map fun y => padChars (ind + 2) ++ serJson (ind + 2) y) ++
            ('\n' :: (padChars ind ++ (']' :: rest)))))).head? = some ']') from by
          rw [hskip]
          simp only [List.head?_cons, Option.some.injEq]
          exact hbr0)]
        rw [← parseItems_skipWs]
        have hitems := (ih f (by omega)).2.1 x xs (ind + 2) ind rest
          ((jsonNumWF_arr_forall _).mpr hwf) (by omega)
        simp only [List.cons_append] at hitems
        simp only [hitems]
    | obj fs =>
      rw [jsonNumWF_obj_forall] at hwf
      rw [jsonFuel_obj] at hfuel
      cases fs with
      | nil => rw [serJson_obj_nil]; rfl
      | cons p fs =>
        obtain ⟨T, hT⟩ : ∃ T, joinChars [',', '\n']
            ((p :: fs).map fun q =>
              padChars (ind + 2) ++ (quoteChars q.1 ++ (':' :: ' ' :: serJson (ind + 2) q.2)))
            = padChars (ind + 2) ++ ('"' :: ((escapeChars p.1.data ++
                ('"' :: (':' :: (' ' :: serJson (ind + 2) p.2)))) ++ T)) := by
          cases fs with
          | nil =>
            refine ⟨[], ?_⟩
            simp [joinChars, quoteChars, List.append_assoc]
          | cons q qs =>
            refine ⟨',' :: '\n' :: joinChars [',', '\n']
              ((q :: qs).map fun r =>
                padChars (ind + 2) ++ (quoteChars r.1 ++ (':' :: ' ' :: serJson (ind + 2) r.2))), ?_⟩
            simp [joinChars, quoteChars, List.append_assoc]
        rw [serJson_obj_cons]
        simp only [List.cons_append, List.append_assoc, List.singleton_append, List.nil_append]
        have hsq : ∀ cs : List Char, skipWs ('{' :: cs) = '{' :: cs :=
          fun cs => skipWs_cons_not '{' cs (by decide)
        simp only [parseValue, hsq]
        rw [if_neg (show ¬((('{' : Char) == '"') = true) from by decide)]
        rw [if_neg (show ¬((('{' : Char) == '[') = true) from by decide)]
        rw [if_pos (show (('{' : Char) == '{') = true from by decide)]
        have hskip : skipWs ('\n' :: (joinChars [',', '\n']
            ((p :: fs).map fun q =>
              padChars (ind + 2) ++ (quoteChars q.1 ++ (':' :: ' ' :: serJson (ind + 2) q.2))) ++
            ('\n' :: (padChars ind ++ ('}' :: rest)))))
            = '"' :: (((escapeChars p.1.data ++
                ('"' :: (':' :: (' ' :: serJson (ind + 2) p.2)))) ++ T) ++
              ('\n' :: (padChars ind ++ ('}' :: rest)))) := by
          rw [skipWs_newline, hT, List.append_assoc, skipWs_pad, List.cons_append]
          exact skipWs_cons_not '"' _ (by decide)
        rw [if_neg (show ¬((skipWs ('\n' :: (joinChars [',', '\n']
            ((p :: fs).map fun q =>
              padChars (ind + 2) ++ (quoteChars q.1 ++ (':' :: ' ' :: serJson (ind + 2) q.2))) ++
            ('\n' :: (padChars ind ++ ('}' :: rest)))))).head? = some '}') from by
          rw [hskip]
          simp)]
        rw [← parseFields_skipWs]
        have hfields := (ih f (by omega)).2.2 p fs (ind + 2) ind rest
          ((jsonNumWF_obj_forall _).mpr hwf) (by omega)
        simp only [List.cons_append] at hfields
        simp only [hfields]
  · -- array items
    intro x xs ind m rest hwf hsum
    have hwx : jsonNumWF x = true := (jsonNumWF_arr_forall _).mp hwf x (List.mem_cons_self _ _)
    have hxf : 1 ≤ jsonFuel x := jsonFuel_pos x
    simp only [List.map_cons, List.sum_cons] at hsum
    obtain ⟨f, rfl⟩ : ∃ f, fuel = f + 1 := ⟨fuel - 1, by omega⟩
    simp only [parseItems]
    cases xs with
    | nil =>
      simp only [List.map_cons, List.map_nil, joinChars, List.append_assoc, List.nil_append]
      have hv : parseValue f ('\n' :: (padChars ind ++
          (serJson ind x ++ ('\n' :: (padChars m ++ (']' :: rest))))))
          = some (x, '\n' :: (padChars m ++ (']' :: rest))) := by
        rw [parseValue_skipWs, skipWs_newline, skipWs_pad, ← parseValue_skipWs]
        exact (ih f (by omega)).1 x ind _ hwx (by omega) (headNumFree_newline _)
      simp only [hv]
      simp only [show skipWs ('\n' :: (padChars m ++ (']' :: rest))) = ']' :: rest from by
        rw [skipWs_newline, skipWs_pad]
        exact skipWs_cons_not _ _ (by decide)]
    | cons y ys =>
      simp only [List.map_cons, joinChars, List.append_assoc, List.cons_append, List.nil_append]
      obtain ⟨J, hJ⟩ : ∃ J, joinChars [',', '\n']
          ((padChars ind ++ serJson ind y) :: ys.map fun z => padChars ind ++ serJson ind z)
          = J := ⟨_, rfl⟩
      rw [hJ]
      have hv : parseValue f ('\n' :: (padChars ind ++
          (serJson ind x ++ (',' :: ('\n' :: (J ++ ('\n' :: (padChars m ++ (']' :: rest)))))))))
          = some (x, ',' :: ('\n' :: (J ++ ('\n' :: (padChars m ++ (']' :: rest)))))) := by
        rw [parseValue_skipWs, skipWs_newline, skipWs_pad, ← parseValue_skipWs]
        exact (ih f (by omega)).1 x ind _ hwx (by omega) (headNumFree_comma _)
      simp only [hv]
      have hsq2 : skipWs (',' :: ('\n' :: (J ++ ('\n' :: (padChars m ++ (']' :: rest))))))
          = ',' :: ('\n' :: (J ++ ('\n' :: (padChars m ++ (']' :: rest))))) :=
        skipWs_cons_not _ _ (by decide)
      simp only [hsq2]
      have hrec := (ih f (by omega)).2.1 y ys ind m rest
        ((jsonNumWF_arr_forall _).mpr (fun z hz =>
          (jsonNumWF_arr_forall _).mp hwf z (List.mem_cons_of_mem x hz))) (by omega)
      simp only [List.map_cons] at hrec
      rw [hJ] at hrec
      simp only [hrec]
  · -- object members
    intro p fs ind m rest hwf hsum
    obtain ⟨k, v⟩ := p
    have hwv : jsonNumWF v = true :=
      (jsonNumWF_obj_forall _).mp hwf (k, v) (List.mem_cons_self _ _)
    have hvf : 1 ≤ jsonFuel v := jsonFuel_pos v
    simp only [List.map_cons, List.sum_cons] at hsum
    obtain ⟨f, rfl⟩ : ∃ f, fuel = f + 1 := ⟨fuel - 1, by omega⟩
    simp only [parseFields]
    cases fs with
    | nil =>
      simp only [List.map_cons, List.map_nil, joinChars, List.append_assoc,
        List.cons_append, List.nil_append]
      rw [show (quoteChars k : List Char) = '"' :: (escapeChars k.data ++ ['"']) from rfl]
      simp only [List.cons_append, List.append_assoc, List.singleton_append, List.nil_append]
      simp only [show skipWs ('\n' :: (padChars ind ++ ('"' :: (escapeChars k.data ++
          ('"' :: (':' :: (' ' :: (serJson ind v ++
            ('\n' :: (padChars m ++ ('}' :: rest)))))))))))
          = '"' :: (escapeChars k.data ++
            ('"' :: (':' :: (' ' :: (serJson ind v ++
              ('\n' :: (padChars m ++ ('}' :: rest)))))))) from by
        rw [skipWs_newline, skipWs_pad]
        exact skipWs_cons_not '"' _ (by decide)]
      have hkey : parseStrBody (escapeChars k.data ++
          ('"' :: (':' :: (' ' :: (serJson ind v ++
            ('\n' :: (padChars m ++ ('}' :: rest)))))))).length
          (escapeChars k.data ++
            ('"' :: (':' :: (' ' :: (serJson ind v ++
              ('\n' :: (padChars m ++ ('}' :: rest))))))))
          = some (k.data, ':' :: (' ' :: (serJson ind v ++
              ('\n' :: (padChars m ++ ('}' :: rest)))))) := by
        apply parseStrBody_rt
        have h := escapeChars_length_ge k.data
        simp only [List.length_append, List.length_cons]
        omega
      simp only [hkey]
      simp only [show skipWs (':' :: (' ' :: (serJson ind v ++
          ('\n' :: (padChars m ++ ('}' :: rest))))))
          = ':' :: (' ' :: (serJson ind v ++ ('\n' :: (padChars m ++ ('}' :: rest))))) from
        skipWs_cons_not _ _ (by decide)]
      have hv2 : parseValue f (' ' :: (serJson ind v ++
          ('\n' :: (padChars m ++ ('}' :: rest)))))
          = some (v, '\n' :: (padChars m ++ ('}' :: rest))) := by
        rw [parseValue_skipWs, skipWs_space, ← parseValue_skipWs]
        exact (ih f (by omega)).1 v ind _ hwv (by omega) (headNumFree_newline _)
      simp only [hv2]
      simp only [show skipWs ('\n' :: (padChars m ++ ('}' :: rest))) = '}' :: rest from by
        rw [skipWs_newline, skipWs_pad]
        exact skipWs_cons_not _ _ (by decide)]
    | cons q qs =>
      simp only [List.map_cons, joinChars, List.append_assoc, List.cons_append, List.nil_append]
      obtain ⟨J, hJ⟩ : ∃ J, joinChars [',', '\n']
          ((padChars ind ++ (quoteChars q.1 ++ (':' :: ' ' :: serJson ind q.2))) ::
            qs.map fun r => padChars ind ++ (quoteChars r.1 ++ (':' :: ' ' :: serJson ind r.2)))
          = J := ⟨_, rfl⟩
      rw [hJ]
      rw [show (quoteChars k : List Char) = '"' :: (escapeChars k.data ++ ['"']) from rfl]
      simp only [List.cons_append, List.append_assoc, List.singleton_append, List.nil_append]
      simp only [show skipWs ('\n' :: (padChars ind ++ ('"' :: (escapeChars k.data ++
          ('"' :: (':' :: (' ' :: (serJson ind v ++
            (',' :: ('\n' :: (J ++ ('\n' :: (padChars m ++ ('}' :: rest))))))))))))))
          = '"' :: (escapeChars k.data ++
            ('"' :: (':' :: (' ' :: (serJson ind v ++
              (',' :: ('\n' :: (J ++ ('\n' :: (padChars m ++ ('}' :: rest))))))))))) from by
        rw [skipWs_newline, skipWs_pad]
        exact skipWs_cons_not '"' _ (by decide)]
      have hkey : parseStrBody (escapeChars k.data ++
          ('"' :: (':' :: (' ' :: (serJson ind v ++
            (',' :: ('\n' :: (J ++ ('\n' :: (padChars m ++ ('}' :: rest))))))))))).length
          (escapeChars k.data ++
            ('"' :: (':' :: (' ' :: (serJson ind v ++
              (',' :: ('\n' :: (J ++ ('\n' :: (padChars m ++ ('}' :: rest)))))))))))
          = some (k.data, ':' :: (' ' :: (serJson ind v ++
              (',' :: ('\n' :: (J ++ ('\n' :: (padChars m ++ ('}' :: rest))))))))) := by
        apply parseStrBody_rt
        have h := escapeChars_length_ge k.data
        simp only [List.length_append, List.length_cons]
        omega
      simp only [hkey]
      simp only [show skipWs (':' :: (' ' :: (serJson ind v ++
          (',' :: ('\n' :: (J ++ ('\n' :: (padChars m ++ ('}' :: rest)))))))))
          = ':' :: (' ' :: (serJson ind v ++
            (',' :: ('\n' :: (J ++ ('\n' :: (padChars m ++ ('}' :: rest)))))))) from
        skipWs_cons_not _ _ (by decide)]
      have hv2 : parseValue f (' ' :: (serJson ind v ++
          (',' :: ('\n' :: (J ++ ('\n' :: (padChars m ++ ('}' :: rest))))))))
          = some (v, ',' :: ('\n' :: (J ++ ('\n' :: (padChars m ++ ('}' :: rest)))))) := by
        rw [parseValue_skipWs, skipWs_space, ← parseValue_skipWs]
        exact (ih f (by omega)).1 v ind _ hwv (by omega) (headNumFree_comma _)
      simp only [hv2]
      simp only [show skipWs (',' :: ('\n' :: (J ++ ('\n' :: (padChars m ++ ('}' :: rest))))))
          = ',' :: ('\n' :: (J ++ ('\n' :: (padChars m ++ ('}' :: rest))))) from
        skipWs_cons_not _ _ (by decide)]
      have hrec := (ih f (by omega)).2.2 q qs ind m rest
        ((jsonNumWF_obj_forall _).mpr (fun r hr =>
          (jsonNumWF_obj_forall _).mp hwf r (List.mem_cons_of_mem (k, v) hr))) (by omega)
      simp only [List.map_cons] at hrec
      rw [hJ] at hrec
      simp only [hrec]

/-!  The serialized form is at least as long as the parser fuel the tree
needs, so `parseJSON`'s length-based fuel always suffices. -/

theorem padChars_length (n : Nat) : (padChars n).length = n := by
  simp [padChars]

theorem sum_len_le_joinChars_length (sep : List Char) (chunks : List (List Char)) :
    (chunks.map List.length).sum ≤ (joinChars sep chunks).length := by
  induction chunks with
  | nil => simp [joinChars]
  | cons a t ih =>
    cases t with
    | nil => simp [joinChars]
    | cons b t2 =>
      simp only [joinChars, List.map_cons, List.sum_cons, List.length_append]
      simp only [List.map_cons, List.sum_cons] at ih
      omega

theorem jsonNumWF_str (s : String) : jsonNumWF (Json.str s) = true := by
  rw [jsonNumWF]

theorem le_sum_map_of_mem {α : Type} (l : List α) (f : α → Nat) (y : α) (hy : y ∈ l) :
    f y ≤ (l.map f).sum := by
  induction l with
  | nil => cases hy
  | cons a t ih =>
    rcases List.mem_cons.mp hy with rfl | h
    · simp only [List.map_cons, List.sum_cons]
      exact Nat.le_add_right _ _
    · simp only [List.map_cons, List.sum_cons]
      have := ih h
      omega

theorem jsonFuel_le_serJson_length :
    ∀ N (j : Json) (ind : Nat), jsonFuel j ≤ N → jsonNumWF j = true →
      jsonFuel j ≤ (serJson ind j).length := by
  intro N
  induction N using Nat.strong_induction_on with
  | _ N ih =>
    intro j ind hN hwf
    cases j with
    | null => simp [jsonFuel_null, serJson_null]
    | bool b => cases b <;> simp [jsonFuel_bool, serJson_true, serJson_false]
    | num lit =>
      rw [jsonFuel_num, serJson_num]
      rw [jsonNumWF_num, numToken, Bool.and_eq_true] at hwf
      cases hd : lit.data with
      | nil =>
        rw [hd] at hwf
        exact absurd hwf.1 (by decide)
      | cons c cs => simp
    | str s =>
      rw [jsonFuel_str, serJson_str]
      simp only [quoteChars, List.length_cons]
      omega
    | arr xs =>
      cases xs with
      | nil => simp [jsonFuel_arr, serJson_arr_nil]
      | cons x xs =>
        rw [jsonFuel_arr] at hN ⊢
        rw [jsonNumWF_arr_forall] at hwf
        rw [serJson_arr_cons]
        have hsum : ((x :: xs).map (fun y => 2 + jsonFuel y)).sum ≤
            ((x :: xs).map (fun y =>
              (padChars (ind + 2) ++ serJson (ind + 2) y).length)).sum := by
          apply List.sum_le_sum
          intro y hy
          have hmem : 2 + jsonFuel y ≤ ((x :: xs).map (fun y => 2 + jsonFuel y)).sum :=
            le_sum_map_of_mem _ (fun y => 2 + jsonFuel y) y hy
          have hfy : jsonFuel y ≤ (serJson (ind + 2) y).length :=
            ih (jsonFuel y) (by omega) y (ind + 2) le_rfl (hwf y hy)
          show 2 + jsonFuel y ≤ (padChars (ind + 2) ++ serJson (ind + 2) y).length
          simp only [List.length_append, padChars_length]
          omega
        have hjoin : ((x :: xs).map (fun y =>
            (padChars (ind + 2) ++ serJson (ind + 2) y).length)).sum ≤
            (joinChars [',', '\n']
              ((x :: xs).map (fun y => padChars (ind + 2) ++ serJson (ind + 2) y))).length := by
          have h := sum_len_le_joinChars_length [',', '\n']
            ((x :: xs).map (fun y => padChars (ind + 2) ++ serJson (ind + 2) y))
          rw [List.map_map] at h
          exact h
        simp only [List.length_cons, List.length_append, padChars_length,
          List.length_singleton]
        omega
    | obj fs =>
      cases fs with
      | nil => simp [jsonFuel_obj, serJson_obj_nil]
      | cons p fs =>
        rw [jsonFuel_obj] at hN ⊢
        rw [jsonNumWF_obj_forall] at hwf
        rw [serJson_obj_cons]
        have hsum : ((p :: fs).map (fun q => 2 + jsonFuel q.2)).sum ≤
            ((p :: fs).map (fun q =>
              (padChars (ind + 2) ++ quoteChars q.1 ++
                (':' :: ' ' :: serJson (ind + 2) q.2)).length)).sum := by
          apply List.sum_le_sum
          intro q hq
          have hmem : 2 + jsonFuel q.2 ≤ ((p :: fs).map (fun q => 2 + jsonFuel q.2)).sum :=
            le_sum_map_of_mem _ (fun q => 2 + jsonFuel q.2) q hq
          have hfy : jsonFuel q.2 ≤ (serJson (ind + 2) q.2).length :=
            ih (jsonFuel q.2) (by omega) q.2 (ind + 2) le_rfl (hwf q hq)
          show 2 + jsonFuel q.2 ≤ (padChars (ind + 2) ++ quoteChars q.1 ++
            (':' :: ' ' :: serJson (ind + 2) q.2)).length
          simp only [List.length_append, padChars_length, List.length_cons]
          omega
        have hjoin : ((p :: fs).map (fun q =>
            (padChars (ind + 2) ++ quoteChars q.1 ++
              (':' :: ' ' :: serJson (ind + 2) q.2)).length)).sum ≤
            (joinChars [',', '\n']
              ((p :: fs).map (fun q =>
                padChars (ind + 2) ++ quoteChars q.1 ++
                  (':' :: ' ' :: serJson (ind + 2) q.2)))).length := by
          have h := sum_len_le_joinChars_length [',', '\n']
            ((p :: fs).map (fun q =>
              padChars (ind + 2) ++ quoteChars q.1 ++ (':' :: ' ' :: serJson (ind + 2) q.2)))
          rw [List.map_map] at h
          exact h
        simp only [List.length_cons, List.length_append, padChars_length,
          List.length_singleton]
        omega

/-!  The decimal rendering of a natural number is a wellformed number
token. -/

theorem digitChar_num (k : Nat) (h : k < 10) : numTokenChar (digitChar k) = true := by
  interval_cases k <;> decide

theorem natDigits_ne_nil (n : Nat) : natDigits n ≠ [] := by
  rw [natDigits]
  split_ifs with h
  · simp
  · simp

theorem natDigits_all_num (n : Nat) : (natDigits n).all numTokenChar = true := by
  induction n using Nat.strong_induction_on with
  | _ n ih =>
    rw [natDigits]
    split_ifs with h
    · simp [digitChar_num n h]
    · rw [List.all_append]
      rw [ih (n / 10) (Nat.div_lt_self (by omega) (by omega))]
      simp [digitChar_num (n % 10) (Nat.mod_lt n (by omega))]

theorem natToStr_numToken (n : Nat) : numToken (natToStr n) = true := by
  obtain ⟨c, cs, hd⟩ : ∃ c cs, natDigits n = c :: cs := by
    cases hd : natDigits n with
    | nil => exact absurd hd (natDigits_ne_nil n)
    | cons c cs => exact ⟨c, cs, rfl⟩
  have h2 := natDigits_all_num n
  rw [hd] at h2
  simp only [numToken, natToStr]
  rw [hd]
  simp [h2]

/-!  Every JSON tree the exporter emits is number-wellformed, provided
the float printer emits number tokens. -/

theorem severityJson_wf (s : Nat) : jsonNumWF (severityJson s) = true := by
  cases hs : severityName? s with
  | none => simp [severityJson, hs, jsonNumWF_num, natToStr_numToken]
  | some nm => simp [severityJson, hs, jsonNumWF_str]

theorem msgToJson_wf (fmtTime : Timezone → Rat → String) (numRepr : Rat → String)
    (tz : Timezone) (hnum : ∀ t : Rat, numToken (numRepr t) = true)
    (m : RosoutMessage) :
    jsonNumWF (msgToJson fmtTime numRepr tz m) = true := by
  refine (jsonNumWF_obj_forall _).mpr ?_
  intro q hq
  simp only [msgToJson, List.mem_cons, List.not_mem_nil, or_false] at hq
  rcases hq with rfl | rfl | rfl | rfl | rfl | rfl | rfl | rfl | rfl
  · show jsonNumWF (Json.num (numRepr m.timestamp)) = true
    rw [jsonNumWF_num]; exact hnum _
  · exact jsonNumWF_str _
  · exact jsonNumWF_str _
  · exact severityJson_wf _
  · exact jsonNumWF_str _
  · exact jsonNumWF_str _
  · show jsonNumWF (Json.num (natToStr (m.line.getD 0))) = true
    rw [jsonNumWF_num]; exact natToStr_numToken _
  · exact jsonNumWF_str _
  · show jsonNumWF (Json.arr ((m.topics.getD []).map Json.str)) = true
    refine (jsonNumWF_arr_forall _).mpr ?_
    intro y hy
    obtain ⟨t, ht, rfl⟩ := List.mem_map.mp hy
    exact jsonNumWF_str t

/-- `parseJSON` inverts `exportToJSON` exactly, recovering the serialized
tree. -/
theorem parseJSON_export (fmtTime : Timezone → Rat → String) (numRepr : Rat → String)
    (tz : Timezone) (R : List RosoutMessage)
    (hnum : ∀ t : Rat, numToken (numRepr t) = true) :
    parseJSON (exportToJSON fmtTime numRepr R tz)
      = some (Json.arr (R.map (msgToJson fmtTime numRepr tz))) := by
  have hwf : jsonNumWF (Json.arr (R.map (msgToJson fmtTime numRepr tz))) = true :=
    (jsonNumWF_arr_forall _).mpr (fun y hy => by
      obtain ⟨m, hm, rfl⟩ := List.mem_map.mp hy
      exact msgToJson_wf fmtTime numRepr tz hnum m)
  have hlen : jsonFuel (Json.arr (R.map (msgToJson fmtTime numRepr tz)))
      ≤ (serJson 0 (Json.arr (R.map (msgToJson fmtTime numRepr tz)))).length + 1 := by
    have h := jsonFuel_le_serJson_length
      (jsonFuel (Json.arr (R.map (msgToJson fmtTime numRepr tz))))
      (Json.arr (R.map (msgToJson fmtTime numRepr tz))) 0 le_rfl hwf
    omega
  have hmaster := (parse_serJson_master
      ((serJson 0 (Json.arr (R.map (msgToJson fmtTime numRepr tz)))).length + 1)).1
      (Json.arr (R.map (msgToJson fmtTime numRepr tz))) 0 [] hwf hlen headNumFree_nil
  rw [List.append_nil] at hmaster
  simp only [parseJSON, exportToJSON, stringifyJson]
  simp only [hmaster]
  rw [if_pos (show (skipWs ([] : List Char)).isEmpty = true from rfl)]

/-!  First-match field lookup in the parsed objects. -/

theorem lookupField_cons_self (k : String) (v : Json) (rest : List (String × Json)) :
    lookupField ((k, v) :: rest) k = some v := by
  simp [lookupField]

theorem lookupField_cons_ne (k key : String) (v : Json) (rest : List (String × Json))
    (h : ¬(k = key)) :
    lookupField ((k, v) :: rest) key = lookupField rest key := by
  simp [lookupField, h]

/-- C6: parsing the string produced by `exportToJSON R tz` yields an array
of the same length as `R`, and at each position the parsed object's
`node`, `message`, `file`, `line`, `function` and `topics` fields equal
the source record's, with absent optionals rendered as `""`, `0`, `""`
and `[]`.  The time formatter and float printer are parameters; the
printer is assumed to emit number tokens, true of the JS `number`
rendering. -/
theorem exportToJSON_parse_roundtrip
    (fmtTime : Timezone → Rat → String) (numRepr : Rat → String) (tz : Timezone)
    (R : List RosoutMessage) (hnum : ∀ t : Rat, numToken (numRepr t) = true) :
    ∃ js : List Json,
      parseJSON (exportToJSON fmtTime numRepr R tz) = some (Json.arr js) ∧
      js.length = R.length ∧
      ∀ i, i < R.length → ∃ (fields : List (String × Json)) (m : RosoutMessage),
        js.get? i = some (Json.obj fields) ∧ R.get? i = some m ∧
        lookupField fields "node" = some (Json.str m.node) ∧
        lookupField fields "message" = some (Json.str m.message) ∧
        lookupField fields "file" = some (Json.str (m.file.getD "")) ∧
        lookupField fields "line" = some (Json.num (natToStr (m.line.getD 0))) ∧
        lookupField fields "function" = some (Json.str (m.function.getD "")) ∧
        lookupField fields "topics" = some (Json.arr ((m.topics.getD []).map Json.str)) := by
  refine ⟨R.map (msgToJson fmtTime numRepr tz),
    parseJSON_export fmtTime numRepr tz R hnum, by simp, ?_⟩
  intro i hi
  have hRi : R.get? i = some (R.get ⟨i, hi⟩) := List.get?_eq_get hi
  refine ⟨[("timestamp", Json.num (numRepr (R.get ⟨i, hi⟩).timestamp)),
      ("time", Json.str (fmtTime tz (R.get ⟨i, hi⟩).timestamp)),
      ("node", Json.str (R.get ⟨i, hi⟩).node),
      ("severity", severityJson (R.get ⟨i, hi⟩).severity),
      ("message", Json.str (R.get ⟨i, hi⟩).message),
      ("file", Json.str ((R.get ⟨i, hi⟩).file.getD "")),
      ("line", Json.num (natToStr ((R.get ⟨i, hi⟩).line.getD 0))),
      ("function", Json.str ((R.get ⟨i, hi⟩).function.getD "")),
      ("topics", Json.arr (((R.get ⟨i, hi⟩).topics.getD []).map Json.str))],
    R.get ⟨i, hi⟩, ?_, hRi, ?_, ?_, ?_, ?_, ?_, ?_⟩
  · rw [List.get?_map, hRi]
    rfl
  · rw [lookupField_cons_ne _ _ _ _ (by decide), lookupField_cons_ne _ _ _ _ (by decide),
      lookupField_cons_self]
  · rw [lookupField_cons_ne _ _ _ _ (by decide), lookupField_cons_ne _ _ _ _ (by decide),
      lookupField_cons_ne _ _ _ _ (by decide), lookupField_cons_ne _ _ _ _ (by decide),
      lookupField_cons_self]
  · rw [lookupField_cons_ne _ _ _ _ (by decide), lookupField_cons_ne _ _ _ _ (by decide),
      lookupField_cons_ne _ _ _ _ (by decide), lookupField_cons_ne _ _ _ _ (by decide),
      lookupField_cons_ne _ _ _ _ (by decide), lookupField_cons_self]
  · rw [lookupField_cons_ne _ _ _ _ (by decide), lookupField_cons_ne _ _ _ _ (by decide),
      lookupField_cons_ne _ _ _ _ (by decide), lookupField_cons_ne _ _ _ _ (by decide),
      lookupField_cons_ne _ _ _ _ (by decide), lookupField_cons_ne _ _ _ _ (by decide),
      lookupField_cons_self]
  · rw [lookupField_cons_ne _ _ _ _ (by decide), lookupField_cons_ne _ _ _ _ (by decide),
      lookupField_cons_ne _ _ _ _ (by decide), lookupField_cons_ne _ _ _ _ (by decide),
      lookupField_cons_ne _ _ _ _ (by decide), lookupField_cons_ne _ _ _ _ (by decide),
      lookupField_cons_ne _ _ _ _ (by decide), lookupField_cons_self]
  · rw [lookupField_cons_ne _ _ _ _ (by decide), lookupField_cons_ne _ _ _ _ (by decide),
      lookupField_cons_ne _ _ _ _ (by decide), lookupField_cons_ne _ _ _ _ (by decide),
      lookupField_cons_ne _ _ _ _ (by decide), lookupField_cons_ne _ _ _ _ (by decide),
      lookupField_cons_ne _ _ _ _ (by decide), lookupField_cons_ne _ _ _ _ (by decide),
      lookupField_cons_self]

/-- The round trip at a concrete export: one record, UTC, unit-model
printers. -/
theorem exportToJSON_parse_roundtrip_witness :
    ∃ js : List Json,
      parseJSON (exportToJSON wFmt wNum [sampleMsg] Timezone.utc) = some (Json.arr js) ∧
      js.length = [sampleMsg].length ∧
      ∀ i, i < [sampleMsg].length → ∃ (fields : List (String × Json)) (m : RosoutMessage),
        js.get? i = some (Json.obj fields) ∧ [sampleMsg].get? i = some m ∧
        lookupField fields "node" = some (Json.str m.node) ∧
        lookupField fields "message" = some (Json.str m.message) ∧
        lookupField fields "file" = some (Json.str (m.file.getD "")) ∧
        lookupField fields "line" = some (Json.num (natToStr (m.line.getD 0))) ∧
        lookupField fields "function" = some (Json.str (m.function.getD "")) ∧
        lookupField fields "topics" = some (Json.arr ((m.topics.getD []).map Json.str)) :=
  exportToJSON_parse_roundtrip wFmt wNum Timezone.utc [sampleMsg]
    (fun _ => show numToken "0" = true by decide)

end RosbagAnalyzer
